import Mathlib

/-!
# LODInstancedViewSystem

A shallow embedding of `src/LODInstancedViewSystem.js` and the properties of its
registration bookkeeping and of its per-frame repack (`update`).

Modelling conventions

* JavaScript numbers that the program only counts with (`count`, `instanceIndex`,
  `maxObjectsCount`, array offsets) are `Int`; array lengths are `Nat`.
* The elements of a transform array are only ever copied, never computed with; they
  are modelled as `Int` values.
* An object reference is a `Nat` (its identity); the fields the program reads or writes
  on it live in a heap `Nat → Object3D`.  `Array.prototype.indexOf` compares references.
* A property that may be `undefined` is an `Option`.
* An operation returns the state it leaves behind together with the exception it threw,
  if any: a JavaScript exception does not roll back the writes made before it.
* Materials are held by value: a material object that two buffers share is modelled as two
  equal copies.
-/

set_option maxRecDepth 8000

namespace LODView

/-- The exceptions the program can raise. -/
inductive JsError where
  /-- The explicit `throw new Error("Max object count ... exceeded!")` of `register`. -/
  | capacityExceeded
  /-- A property read or write on `undefined`. -/
  | typeError
  /-- An out-of-bounds `TypedArray.prototype.set`, or a negative typed-array length. -/
  | rangeError
  deriving DecidableEq, Repr

/-- A uniforms table: only the `timeElapsed` entry is ever touched; `none` is a table
without that entry, `some v` an entry whose `.value` is `v`. -/
structure Uniforms where
  timeElapsed : Option Int
  deriving DecidableEq, Repr

/-- A material: `uniforms` is `material.uniforms`, `userDataUniforms` is
`material.userData.uniforms`; `none` is an absent table. -/
structure Material where
  uniforms : Option Uniforms
  userDataUniforms : Option Uniforms
  deriving DecidableEq, Repr

/-- One entry of the constructor's `meshModels` array. -/
structure MeshModel where
  material : Material
  customDepthMaterial : Option Material
  customDistanceMaterial : Option Material
  depthPrepassMaterial : Option Material
  deriving DecidableEq, Repr

/-- Modelled from the spec: the instanced drawable (an `InstancedMesh` of the rendering
library, the spec's LODBuffer).  `count` is the active count, `instanceMatrix` the flat
transform storage `instanceMatrix.array` (16 elements per instance, allocated once), and
`needsUpdate` the dirty flag `instanceMatrix.needsUpdate`.  The fields the constructor
sets and nothing reads (`frustumCulled`, `castShadow`, the usage hint, ...) are left
out. -/
structure InstancedMesh where
  count : Int
  instanceMatrix : List Int
  needsUpdate : Bool
  material : Material
  customDepthMaterial : Option Material
  customDistanceMaterial : Option Material
  depthPrepassMaterial : Option Material
  deriving DecidableEq, Repr

/-- The fixed capacity of a buffer, in instances: its transform storage holds 16
elements for each. -/
def InstancedMesh.capacity (m : InstancedMesh) : Nat :=
  m.instanceMatrix.length / 16

/-- The fields of a registered object that the view system reads or writes.
`updateView` records whether the callback `() => this.setObjectMatrix(object)` of this
view is installed. -/
structure Object3D where
  instanceIndex : Option Int
  currentLOD : Option Int
  matrix : Fin 16 → Int
  updateView : Bool

/-- A chunk's entity group for one view name. -/
structure EntityGroup where
  entityMatrices : List Int
  entities : List Nat
  deriving DecidableEq, Repr

/-- A chunk of the world: `entityGroups[name]` is the first entry stored under `name`,
`undefined` when there is none. -/
structure Chunk where
  currentLOD : Option Int
  entityGroups : List (String × EntityGroup)
  deriving DecidableEq, Repr

/-- The fields of the view system itself; `objects` holds object references. -/
structure LODInstancedViewSystem where
  maxObjectsCount : Int
  name : String
  objects : List Nat
  viewsLOD : List InstancedMesh
  deriving DecidableEq, Repr

/-- The view system together with the objects it can reach. -/
structure World where
  sys : LODInstancedViewSystem
  heap : Nat → Object3D

/-- What a call leaves behind: the state after it and the exception thrown, if any. -/
structure Outcome where
  state : World
  error : Option JsError

/-- The array index a JavaScript value denotes when used as `viewsLOD[ v ]`:
a non-negative integer, or nothing (`undefined`, a negative number). -/
def lodIndex : Option Int → Option Nat
  | some (Int.ofNat n) => some n
  | _ => none

/-- The lookup `this.viewsLOD[ lod ]`: `none` stands for `undefined`. -/
def viewAt (viewsLOD : List InstancedMesh) (lod : Option Int) : Option (Nat × InstancedMesh) :=
  match lodIndex lod with
  | none => none
  | some n =>
    match viewsLOD[n]? with
    | none => none
    | some m => some (n, m)

/-- The call `target.set(source, offset)` on a typed array: it throws a RangeError
(`none`) when the source does not fit at the offset, otherwise it overwrites
`source.length` elements starting at `offset`. -/
def typedArraySet (target source : List Int) (offset : Int) : Option (List Int) :=
  if offset < 0 ∨ (target.length : Int) < offset + source.length then none
  else some (target.take offset.toNat ++ source ++ target.drop (offset.toNat + source.length))

/-- An element store `array[ index ] = value` on a typed array: a store outside the
array is ignored. -/
def storeElement (array : List Int) (index : Int) (value : Int) : List Int :=
  if 0 ≤ index ∧ index < array.length then array.set index.toNat value else array

/-- Modelled from the spec: `matrix.toArray(array, offset)` of the rendering library,
sixteen element stores `array[ offset + j ] = te[ j ]`. -/
def toArray (te : Fin 16 → Int) (array : List Int) (offset : Int) : List Int :=
  (List.finRange 16).foldl (fun a j => storeElement a (offset + (j.val : Int)) (te j)) array

/-- Modelled from the spec: `setMatrixAt(index, matrix)` of the rendering library, which
is `matrix.toArray(this.instanceMatrix.array, index * 16)`; an `undefined` index gives
the offset NaN, under which every store is ignored. -/
def setMatrixAt (m : InstancedMesh) (index : Option Int) (matrix : Fin 16 → Int) : InstancedMesh :=
  match index with
  | none => m
  | some i => { m with instanceMatrix := toArray matrix m.instanceMatrix (i * 16) }

/-- The body of the constructor's loop for one mesh model:
`new InstancedMesh(geometry, material, count)` allocates `count * 16` elements (a
RangeError for a negative count); then `meshView.count = 0` and the three auxiliary
materials are taken over from the model. -/
def newMeshView (meshModel : MeshModel) (count : Int) : Except JsError InstancedMesh :=
  if count < 0 then .error .rangeError
  else .ok
    { count := 0
      instanceMatrix := List.replicate (count.toNat * 16) 0
      needsUpdate := false
      material := meshModel.material
      customDepthMaterial := meshModel.customDepthMaterial
      customDistanceMaterial := meshModel.customDistanceMaterial
      depthPrepassMaterial := meshModel.depthPrepassMaterial }

/-- The constructor's loop over `meshModels`. -/
def buildViews : List MeshModel → Int → Except JsError (List InstancedMesh)
  | [], _ => .ok []
  | meshModel :: rest, count =>
    match newMeshView meshModel count with
    | .error e => .error e
    | .ok meshView =>
      match buildViews rest count with
      | .error e => .error e
      | .ok views => .ok (meshView :: views)

/-- The constructor `new LODInstancedViewSystem(meshModels, count, name, usage)`. -/
def construct (meshModels : List MeshModel) (count : Int) (name : String) :
    Except JsError LODInstancedViewSystem :=
  match buildViews meshModels count with
  | .error e => .error e
  | .ok views => .ok { maxObjectsCount := count, name := name, objects := [], viewsLOD := views }

/-- The result of `this.objects.indexOf( object )`: the first position of the reference,
or `-1`. -/
def indexOf (objects : List Nat) (object : Nat) : Int :=
  if object ∈ objects then (objects.indexOf object : Int) else -1

/-- The method `register( object )`. -/
def register (w : World) (object : Nat) : Outcome :=
  if (w.sys.objects.length : Int) ≥ w.sys.maxObjectsCount then
    { state := w, error := some .capacityExceeded }
  else
    let objects := w.sys.objects ++ [object]
    match w.sys.viewsLOD with
    | [] => { state := { w with sys := { w.sys with objects := objects } }, error := some .typeError }
    | view0 :: rest =>
      { state :=
          { sys := { w.sys with
                      objects := objects
                      viewsLOD := { view0 with count := view0.count + 1 } :: rest }
            heap := Function.update w.heap object
              { w.heap object with instanceIndex := some view0.count, updateView := true } }
        error := none }

/-- The method `unregister( object )`. -/
def unregister (w : World) (object : Nat) : Outcome :=
  let objectIndex := indexOf w.sys.objects object
  if objectIndex > -1 then
    let objects := w.sys.objects.eraseIdx objectIndex.toNat
    match viewAt w.sys.viewsLOD (w.heap object).currentLOD with
    | none => { state := { w with sys := { w.sys with objects := objects } }, error := some .typeError }
    | some (n, viewLOD) =>
      { state := { w with sys := { w.sys with
                                    objects := objects
                                    viewsLOD := w.sys.viewsLOD.set n { viewLOD with count := viewLOD.count - 1 } } }
        error := none }
  else { state := w, error := none }

/-- The method `setObjectMatrix( object )`, which the `updateView` callback invokes. -/
def setObjectMatrix (w : World) (object : Nat) : Outcome :=
  match viewAt w.sys.viewsLOD (w.heap object).currentLOD with
  | none => { state := w, error := some .typeError }
  | some (n, viewLOD) =>
    let written := setMatrixAt viewLOD (w.heap object).instanceIndex (w.heap object).matrix
    { state := { w with sys := { w.sys with
                                  viewsLOD := w.sys.viewsLOD.set n { written with needsUpdate := true } } }
      error := none }

/-- The first loop of `update`: every buffer's count is reset and every buffer is marked
dirty. -/
def resetViews (viewsLOD : List InstancedMesh) : List InstancedMesh :=
  viewsLOD.map (fun m => { m with count := 0, needsUpdate := true })

/-- The second loop of `update`, over the visible chunks, on the list of buffers.  The
buffer lookup `this.viewsLOD[ visibleChunk.currentLOD ]` comes first and cannot throw; a
chunk without the view's group is skipped; the first use of an `undefined` buffer is a
TypeError, a block that does not fit a RangeError.  The loop stops at the first exception
and keeps what was written before it. -/
def updateChunks (name : String) :
    List Chunk → List InstancedMesh → List InstancedMesh × Option JsError
  | [], viewsLOD => (viewsLOD, none)
  | visibleChunk :: rest, viewsLOD =>
    let viewLOD? := viewAt viewsLOD visibleChunk.currentLOD
    match visibleChunk.entityGroups.lookup name with
    | none => updateChunks name rest viewsLOD
    | some entityGroup =>
      match viewLOD? with
      | none => (viewsLOD, some .typeError)
      | some (n, viewLOD) =>
        match typedArraySet viewLOD.instanceMatrix entityGroup.entityMatrices (viewLOD.count * 16) with
        | none => (viewsLOD, some .rangeError)
        | some array =>
          updateChunks name rest
            (viewsLOD.set n
              { viewLOD with
                instanceMatrix := array
                count := viewLOD.count + entityGroup.entities.length })

/-- The method `update( visibleChunks )`. -/
def update (w : World) (visibleChunks : List Chunk) : Outcome :=
  let r := updateChunks w.sys.name visibleChunks (resetViews w.sys.viewsLOD)
  { state := { w with sys := { w.sys with viewsLOD := r.1 } }, error := r.2 }

/-- The calls a client can make on a view. -/
inductive Call where
  | register (object : Nat)
  | unregister (object : Nat)
  | setObjectMatrix (object : Nat)
  | update (visibleChunks : List Chunk)

/-- One call on the view. -/
def call (w : World) : Call → Outcome
  | .register object => register w object
  | .unregister object => unregister w object
  | .setObjectMatrix object => setObjectMatrix w object
  | .update visibleChunks => update w visibleChunks

/-- The state after a sequence of calls; a call that throws leaves its partial writes
and the client goes on with the next call. -/
def runCalls (w : World) : List Call → World
  | [] => w
  | c :: cs => runCalls (call w c).state cs

/-- Every call of the sequence returns without an exception. -/
def allReturn (w : World) : List Call → Prop
  | [] => True
  | c :: cs => (call w c).error = none ∧ allReturn (call w c).state cs

/-- A chunk carries a group of the view called `name` and declares the level `lod`. -/
def carriesAt (name : String) (lod : Nat) (c : Chunk) : Option EntityGroup :=
  match c.entityGroups.lookup name with
  | none => none
  | some g => if c.currentLOD = some (lod : Int) then some g else none

/-- The groups of the view `name` that the chunks declaring level `lod` carry, in chunk
order. -/
def groupsAt (name : String) (lod : Nat) (chunks : List Chunk) : List EntityGroup :=
  chunks.filterMap (carriesAt name lod)

/-- The sum of `entities.length` over the groups of level `lod`. -/
def entityTotal (name : String) (lod : Nat) (chunks : List Chunk) : Int :=
  ((groupsAt name lod chunks).map (fun g => (g.entities.length : Int))).sum

/-- The concatenation, in chunk order, of the transform blocks of level `lod`. -/
def blocksAt (name : String) (lod : Nat) (chunks : List Chunk) : List Int :=
  ((groupsAt name lod chunks).map (fun g => g.entityMatrices)).flatten

/-- Every carried group's block has exactly 16 elements per entity. -/
def exactBlocks (name : String) (chunks : List Chunk) : Prop :=
  ∀ c ∈ chunks, ∀ g ∈ c.entityGroups.lookup name,
    g.entityMatrices.length = 16 * g.entities.length

instance (name : String) (chunks : List Chunk) : Decidable (exactBlocks name chunks) := by
  unfold exactBlocks; infer_instance

/-- Every carried group's block has at least 16 elements per entity. -/
def fullBlocks (name : String) (chunks : List Chunk) : Prop :=
  ∀ c ∈ chunks, ∀ g ∈ c.entityGroups.lookup name,
    16 * g.entities.length ≤ g.entityMatrices.length

instance (name : String) (chunks : List Chunk) : Decidable (fullBlocks name chunks) := by
  unfold fullBlocks; infer_instance

/-- The active count of buffer `lod`, when there is such a buffer. -/
def countAt (w : World) (lod : Nat) : Option Int :=
  (w.sys.viewsLOD[lod]?).map (fun m => m.count)

/-- The transform array of buffer `lod`, when there is such a buffer. -/
def arrayAt (w : World) (lod : Nat) : Option (List Int) :=
  (w.sys.viewsLOD[lod]?).map (fun m => m.instanceMatrix)

/-- The sixteen elements of slot `k` of a flat transform array. -/
def slot (array : List Int) (k : Nat) : List Int :=
  (array.drop (16 * k)).take 16

/-- Everything of a buffer that the chunk loop leaves alone: the length of the transform
storage, the dirty flag and the materials. -/
def sameShape (m m' : InstancedMesh) : Prop :=
  m'.instanceMatrix.length = m.instanceMatrix.length ∧ m'.needsUpdate = m.needsUpdate ∧
  m'.material = m.material ∧ m'.customDepthMaterial = m.customDepthMaterial ∧
  m'.customDistanceMaterial = m.customDistanceMaterial ∧
  m'.depthPrepassMaterial = m.depthPrepassMaterial

/-- A material without uniform tables, for the examples. -/
def exampleMaterial : Material :=
  { uniforms := none, userDataUniforms := none }

/-- A mesh model without auxiliary materials, for the examples. -/
def exampleModel : MeshModel :=
  { material := exampleMaterial, customDepthMaterial := none,
    customDistanceMaterial := none, depthPrepassMaterial := none }

/-- A fresh buffer of capacity 10. -/
def exampleBuffer : InstancedMesh :=
  { count := 0, instanceMatrix := List.replicate 160 0, needsUpdate := false,
    material := exampleMaterial, customDepthMaterial := none,
    customDistanceMaterial := none, depthPrepassMaterial := none }

/-- The view `new LODInstancedViewSystem([model, model], 10, "trees")`: two levels of
capacity 10. -/
def exampleSys : LODInstancedViewSystem :=
  { maxObjectsCount := 10, name := "trees", objects := [],
    viewsLOD := [exampleBuffer, exampleBuffer] }

/-- Example objects: object 0 has no `currentLOD`, object `k + 1` has `currentLOD = k`;
none is registered yet. -/
def exampleHeap : Nat → Object3D := fun k =>
  { instanceIndex := none
    currentLOD := if k = 0 then none else some ((k : Int) - 1)
    matrix := fun _ => (k : Int)
    updateView := false }

/-- The example view with the example objects. -/
def exampleWorld : World :=
  { sys := exampleSys, heap := exampleHeap }

/-- Chunk A: level 0, three entities of the view "trees". -/
def chunkA : Chunk :=
  { currentLOD := some 0
    entityGroups := [("trees", { entityMatrices := List.replicate 48 1, entities := [1, 2, 3] })] }

/-- Chunk B: level 1, two entities of the view "trees". -/
def chunkB : Chunk :=
  { currentLOD := some 1
    entityGroups := [("trees", { entityMatrices := List.replicate 32 2, entities := [4, 5] })] }

/-- Chunk C: no group of the view "trees" (and a level no buffer has). -/
def chunkC : Chunk :=
  { currentLOD := some 7
    entityGroups := [("rocks", { entityMatrices := List.replicate 16 3, entities := [6] })] }

/-- The relation between a buffer `a` during a run of the chunk loop, the same buffer `b`
at the same point of a second run that started from the result of the first, and that
result `fin`: same count and storage length, the flags and materials of the result, and
every element of `b` is the element of `a` or already the element of the result. -/
def Rerun (fin a b : InstancedMesh) : Prop :=
  b.count = a.count ∧ b.instanceMatrix.length = a.instanceMatrix.length ∧
  b.needsUpdate = fin.needsUpdate ∧ b.material = fin.material ∧
  b.customDepthMaterial = fin.customDepthMaterial ∧
  b.customDistanceMaterial = fin.customDistanceMaterial ∧
  b.depthPrepassMaterial = fin.depthPrepassMaterial ∧
  ∀ i : Nat, b.instanceMatrix[i]? = a.instanceMatrix[i]? ∨
    b.instanceMatrix[i]? = fin.instanceMatrix[i]?

/-- The view `new LODInstancedViewSystem([model, model], 1, "trees")`: two levels
provisioned for a single object. -/
def tinySys : LODInstancedViewSystem :=
  { maxObjectsCount := 1, name := "trees", objects := [],
    viewsLOD := [{ exampleBuffer with instanceMatrix := List.replicate 16 0 },
                 { exampleBuffer with instanceMatrix := List.replicate 16 0 }] }

/-- The one-object view with the example objects. -/
def tinyWorld : World :=
  { sys := tinySys, heap := exampleHeap }

/-- The one-object view after object 1 was registered: it is full. -/
def fullWorld : World :=
  (register tinyWorld 1).state

/-- A call sequence of the bulk phase: no `register`, and every `update` gets blocks of
at least 16 elements per entity. -/
def bulkCalls (name : String) : List Call → Bool
  | [] => true
  | .register _ :: _ => false
  | .unregister _ :: cs => bulkCalls name cs
  | .setObjectMatrix _ :: cs => bulkCalls name cs
  | .update visibleChunks :: cs => decide (fullBlocks name visibleChunks) && bulkCalls name cs

/-- A call sequence that keeps the two update paths apart: up to the first `update` only
objects with `currentLOD = 0` are unregistered, every `update` gets blocks of at least 16
elements per entity, and no `register` follows an `update`. -/
def disciplined (name : String) (heap : Nat → Object3D) : List Call → Bool
  | [] => true
  | .register _ :: cs => disciplined name heap cs
  | .unregister object :: cs =>
    decide ((heap object).currentLOD = some 0) && disciplined name heap cs
  | .setObjectMatrix _ :: cs => disciplined name heap cs
  | .update visibleChunks :: cs => decide (fullBlocks name visibleChunks) && bulkCalls name cs

/-- The invariant of the sparse phase of a view built for `count` objects: buffer 0's
count is the number of tracked objects, the other counts are 0, storage lengths are as
allocated, and the objects keep the `currentLOD` of `heap`. -/
def SparseInv (count : Int) (heap : Nat → Object3D) (w : World) : Prop :=
  w.sys.maxObjectsCount = count ∧
  (∀ o, (w.heap o).currentLOD = (heap o).currentLOD) ∧
  ∀ (l : Nat) (m : InstancedMesh), w.sys.viewsLOD[l]? = some m →
    0 ≤ count ∧ (w.sys.objects.length : Int) ≤ count ∧
    m.instanceMatrix.length = count.toNat * 16 ∧
    m.count = if l = 0 then (w.sys.objects.length : Int) else 0

/-- The invariant of the bulk phase: storage lengths are as allocated and no count
exceeds the capacity `count`. -/
def BulkInv (count : Int) (w : World) : Prop :=
  ∀ (l : Nat) (m : InstancedMesh), w.sys.viewsLOD[l]? = some m →
    0 ≤ count ∧ m.instanceMatrix.length = count.toNat * 16 ∧ m.count ≤ count

/-- A chunk that declares two entities at level 0 but exposes an empty transform block. -/
def chunkShort : Chunk :=
  { currentLOD := some 0
    entityGroups := [("trees", { entityMatrices := [], entities := [7, 8] })] }

/-- The capacity of buffer `lod`, when there is such a buffer. -/
def capacityAt (w : World) (lod : Nat) : Option Nat :=
  (w.sys.viewsLOD[lod]?).map (fun m => m.capacity)

/-- A chunk of one entity at level 0. -/
def chunkOne : Chunk :=
  { currentLOD := some 0
    entityGroups := [("trees", { entityMatrices := List.replicate 16 5, entities := [9] })] }

/-- Example objects that all have `currentLOD = 0`; none is registered yet. -/
def flatHeap : Nat → Object3D := fun k =>
  { instanceIndex := none
    currentLOD := some 0
    matrix := fun _ => (k : Int)
    updateView := false }

/-- The example view (two levels of capacity 10) with objects that all sit at level 0. -/
def flatWorld : World :=
  { sys := exampleSys, heap := flatHeap }

/-- The method `setDepthPrepassMaterial( material, lod )`: the store
`this.viewsLOD[ lod ].depthPrepassMaterial = material`, a TypeError when there is no
buffer at `lod`.  The material is any value, `none` for `undefined`. -/
def setDepthPrepassMaterial (w : World) (material : Option Material) (lod : Option Int) :
    Outcome :=
  match viewAt w.sys.viewsLOD lod with
  | none => { state := w, error := some .typeError }
  | some (n, viewLOD) =>
    { state := { w with sys := { w.sys with
        viewsLOD := w.sys.viewsLOD.set n { viewLOD with depthPrepassMaterial := material } } }
      error := none }

/-- The method `getDepthPrepassMaterial( lod )`: the read
`this.viewsLOD[ lod ].depthPrepassMaterial`, a TypeError when there is no buffer at
`lod`.  It writes nothing. -/
def getDepthPrepassMaterial (w : World) (lod : Option Int) : Except JsError (Option Material) :=
  match viewAt w.sys.viewsLOD lod with
  | none => .error .typeError
  | some (_, viewLOD) => .ok viewLOD.depthPrepassMaterial

/-- The value `lod` is an index of a buffer: an integer in `[0, viewsLOD.length)`. -/
def validLOD (w : World) (lod : Option Int) : Prop :=
  ∃ n, n < w.sys.viewsLOD.length ∧ lod = some (n : Int)

instance (w : World) (lod : Option Int) : Decidable (validLOD w lod) := by
  unfold validLOD; infer_instance

/-- The guarded store `if ( uniforms ) uniforms["timeElapsed"].value = timeElapsed` on a
uniforms table that may be absent: an absent table is skipped, a table with the entry gets
the value, and a table without the entry makes the store throw a TypeError (`none`). -/
def setTimeElapsed (uniforms : Option Uniforms) (timeElapsed : Int) : Option (Option Uniforms) :=
  match uniforms with
  | none => some none
  | some table =>
    match table.timeElapsed with
    | none => none
    | some _ => some (some { timeElapsed := some timeElapsed })

/-- The guarded store on an auxiliary material,
`if ( m && m.userData.uniforms ) m.userData.uniforms["timeElapsed"].value = timeElapsed`:
an absent material is skipped; `none` is a TypeError. -/
def setTimeElapsedAux (material : Option Material) (timeElapsed : Int) :
    Option (Option Material) :=
  match material with
  | none => some none
  | some m =>
    match setTimeElapsed m.userDataUniforms timeElapsed with
    | none => none
    | some u => some (some { m with userDataUniforms := u })

/-- The body of the loop of `updateShaders` for one buffer: the four guarded stores in
source order; a store that throws leaves the earlier stores in place. -/
def updateShadersView (viewLOD : InstancedMesh) (timeElapsed : Int) :
    InstancedMesh × Option JsError :=
  match setTimeElapsed viewLOD.material.uniforms timeElapsed with
  | none => (viewLOD, some .typeError)
  | some u =>
    let v1 := { viewLOD with material := { viewLOD.material with uniforms := u } }
    match setTimeElapsedAux v1.customDepthMaterial timeElapsed with
    | none => (v1, some .typeError)
    | some depth =>
      let v2 := { v1 with customDepthMaterial := depth }
      match setTimeElapsedAux v2.customDistanceMaterial timeElapsed with
      | none => (v2, some .typeError)
      | some distance =>
        let v3 := { v2 with customDistanceMaterial := distance }
        match setTimeElapsedAux v3.depthPrepassMaterial timeElapsed with
        | none => (v3, some .typeError)
        | some prepass => ({ v3 with depthPrepassMaterial := prepass }, none)

/-- The loop of `updateShaders` over the buffers; it stops at the first exception. -/
def updateShadersViews : List InstancedMesh → Int → List InstancedMesh × Option JsError
  | [], _ => ([], none)
  | viewLOD :: rest, timeElapsed =>
    match updateShadersView viewLOD timeElapsed with
    | (v, some e) => (v :: rest, some e)
    | (v, none) =>
      let r := updateShadersViews rest timeElapsed
      (v :: r.1, r.2)

/-- The method `updateShaders( delta, timeElapsed )`; `delta` is not used. -/
def updateShaders (w : World) (_delta : Int) (timeElapsed : Int) : Outcome :=
  let r := updateShadersViews w.sys.viewsLOD timeElapsed
  { state := { w with sys := { w.sys with viewsLOD := r.1 } }, error := r.2 }

/-- A shader material whose uniforms table has no `timeElapsed` entry. -/
def plainShaderMaterial : Material :=
  { uniforms := some { timeElapsed := none }, userDataUniforms := none }

/-- A view of one level whose main material is a shader material without a `timeElapsed`
uniform. -/
def plainShaderWorld : World :=
  { sys := { maxObjectsCount := 10, name := "trees", objects := [],
             viewsLOD := [{ exampleBuffer with material := plainShaderMaterial }] }
    heap := exampleHeap }

/-- A material whose `userData.uniforms` table has no `timeElapsed` entry. -/
def plainDepthMaterial : Material :=
  { uniforms := none, userDataUniforms := some { timeElapsed := none } }

/-- A view of one level whose custom depth material has a `userData.uniforms` table
without a `timeElapsed` entry. -/
def plainDepthWorld : World :=
  { sys := { maxObjectsCount := 10, name := "trees", objects := [],
             viewsLOD := [{ exampleBuffer with customDepthMaterial := some plainDepthMaterial }] }
    heap := exampleHeap }

/-- A shader material with a `timeElapsed` uniform of value 0. -/
def timedMaterial : Material :=
  { uniforms := some { timeElapsed := some 0 }, userDataUniforms := none }

/-- A view of one level whose main material has the `timeElapsed` uniform. -/
def timedWorld : World :=
  { sys := { maxObjectsCount := 10, name := "trees", objects := [],
             viewsLOD := [{ exampleBuffer with material := timedMaterial }] }
    heap := exampleHeap }

/-- A sequence of `register` and `unregister` calls in which every unregistered object
has `currentLOD = 0`. -/
def registryCalls (heap : Nat → Object3D) : List Call → Bool
  | [] => true
  | .register _ :: cs => registryCalls heap cs
  | .unregister object :: cs =>
    decide ((heap object).currentLOD = some 0) && registryCalls heap cs
  | .setObjectMatrix _ :: _ => false
  | .update _ :: _ => false

/-! ## Lemmas and theorems -/

theorem lodIndex_eq_some {lod : Option Int} {n : Nat} :
    lodIndex lod = some n ↔ lod = some (n : Int) := by
  cases lod with
  | none => simp [lodIndex]
  | some i =>
    cases i with
    | ofNat k => simp [lodIndex]
    | negSucc k =>
      simp only [lodIndex, Option.some.injEq]
      constructor
      · intro h; cases h
      · intro h
        have h2 := h
        have h3 : (0 : Int) ≤ (n : Int) := Int.ofNat_nonneg n
        rw [← h2] at h3
        exact absurd h3 (by simp [Int.negSucc_lt_zero])

theorem viewAt_eq_some {viewsLOD : List InstancedMesh} {lod : Option Int} {n : Nat}
    {m : InstancedMesh} :
    viewAt viewsLOD lod = some (n, m) ↔ lod = some (n : Int) ∧ viewsLOD[n]? = some m := by
  unfold viewAt
  constructor
  · intro h
    cases hl : lodIndex lod with
    | none => simp [hl] at h
    | some k =>
      cases hv : viewsLOD[k]? with
      | none => simp [hl, hv] at h
      | some v =>
        simp [hl, hv] at h
        obtain ⟨rfl, rfl⟩ := h
        exact ⟨lodIndex_eq_some.mp hl, hv⟩
  · rintro ⟨h1, h2⟩
    simp [lodIndex_eq_some.mpr h1, h2]

/-- What a successful run over `visibleChunk :: rest` did with its first chunk. -/
theorem updateChunks_cons_ok {name : String} {c : Chunk} {rest : List Chunk}
    {viewsLOD fin : List InstancedMesh}
    (h : updateChunks name (c :: rest) viewsLOD = (fin, none)) :
    (c.entityGroups.lookup name = none ∧ updateChunks name rest viewsLOD = (fin, none)) ∨
    ∃ (g : EntityGroup) (n : Nat) (v : InstancedMesh) (array : List Int),
      c.entityGroups.lookup name = some g ∧ c.currentLOD = some (n : Int) ∧
      viewsLOD[n]? = some v ∧
      typedArraySet v.instanceMatrix g.entityMatrices (v.count * 16) = some array ∧
      updateChunks name rest
        (viewsLOD.set n { v with instanceMatrix := array,
                                 count := v.count + g.entities.length }) = (fin, none) := by
  unfold updateChunks at h
  cases hg : c.entityGroups.lookup name with
  | none => left; simpa [hg] using h
  | some g =>
    right
    simp only [hg] at h
    cases hv : viewAt viewsLOD c.currentLOD with
    | none => simp [hv] at h
    | some p =>
      obtain ⟨n, v⟩ := p
      simp only [hv] at h
      cases ha : typedArraySet v.instanceMatrix g.entityMatrices (v.count * 16) with
      | none => simp [ha] at h
      | some array =>
        simp only [ha] at h
        obtain ⟨h1, h2⟩ := viewAt_eq_some.mp hv
        exact ⟨g, n, v, array, rfl, h1, h2, ha, h⟩

theorem carriesAt_of_lookup_none {name : String} {c : Chunk} (lod : Nat)
    (h : c.entityGroups.lookup name = none) : carriesAt name lod c = none := by
  simp [carriesAt, h]

theorem carriesAt_same {name : String} {c : Chunk} {g : EntityGroup} {n : Nat}
    (h : c.entityGroups.lookup name = some g) (hl : c.currentLOD = some (n : Int)) :
    carriesAt name n c = some g := by
  simp [carriesAt, h, hl]

theorem carriesAt_other {name : String} {c : Chunk} {n l : Nat}
    (hl : c.currentLOD = some (n : Int)) (hne : n ≠ l) :
    carriesAt name l c = none := by
  unfold carriesAt
  cases c.entityGroups.lookup name with
  | none => rfl
  | some g =>
    have : ¬ (c.currentLOD = some (l : Int)) := by
      rw [hl]; intro h; apply hne; exact_mod_cast Option.some.inj h
    simp [this]

/-- The counts after a successful run of the chunk loop. -/
theorem updateChunks_count {name : String} (chunks : List Chunk) :
    ∀ (viewsLOD fin : List InstancedMesh), updateChunks name chunks viewsLOD = (fin, none) →
      ∀ (l : Nat) (m : InstancedMesh), viewsLOD[l]? = some m →
        ∃ m', fin[l]? = some m' ∧ m'.count = m.count + entityTotal name l chunks := by
  induction chunks with
  | nil =>
    intro viewsLOD fin h l m hm
    simp [updateChunks] at h
    subst h
    exact ⟨m, hm, by simp [entityTotal, groupsAt]⟩
  | cons c rest ih =>
    intro viewsLOD fin h l m hm
    rcases updateChunks_cons_ok h with ⟨hg, hr⟩ | ⟨g, n, v, array, hg, hl, hv, _, hr⟩
    · obtain ⟨m', h1, h2⟩ := ih viewsLOD fin hr l m hm
      refine ⟨m', h1, ?_⟩
      simp [entityTotal, groupsAt, List.filterMap_cons, carriesAt_of_lookup_none l hg] at h2 ⊢
      exact h2
    · by_cases hnl : n = l
      · subst hnl
        have hlt : n < viewsLOD.length := by
          rcases List.getElem?_eq_some.mp hv with ⟨hlt, _⟩; exact hlt
        have hm' : m = v := by rw [hv] at hm; exact (Option.some.inj hm).symm
        subst hm'
        obtain ⟨m', h1, h2⟩ := ih _ fin hr n _ (List.getElem?_set_self hlt)
        refine ⟨m', h1, ?_⟩
        simp [entityTotal, groupsAt, List.filterMap_cons, carriesAt_same hg hl] at h2 ⊢
        omega
      · obtain ⟨m', h1, h2⟩ := ih _ fin hr l m (by rw [List.getElem?_set_ne hnl]; exact hm)
        refine ⟨m', h1, ?_⟩
        simp [entityTotal, groupsAt, List.filterMap_cons, carriesAt_other hl hnl] at h2 ⊢
        exact h2

theorem typedArraySet_eq_some {target source array : List Int} {offset : Int}
    (h : typedArraySet target source offset = some array) :
    0 ≤ offset ∧ offset.toNat + source.length ≤ target.length ∧
    array = target.take offset.toNat ++ source ++
      target.drop (offset.toNat + source.length) := by
  unfold typedArraySet at h
  split at h
  · cases h
  · rename_i hc
    simp only [not_or, not_lt] at hc
    refine ⟨hc.1, by omega, ?_⟩
    exact (Option.some.inj h).symm

theorem typedArraySet_length {target source array : List Int} {offset : Int}
    (h : typedArraySet target source offset = some array) :
    array.length = target.length := by
  obtain ⟨_, h2, rfl⟩ := typedArraySet_eq_some h
  simp only [List.length_append, List.length_take, List.length_drop]
  omega

theorem sameShape_refl (m : InstancedMesh) : sameShape m m := by
  simp [sameShape]

theorem sameShape_trans {a b c : InstancedMesh} (h1 : sameShape a b) (h2 : sameShape b c) :
    sameShape a c := by
  obtain ⟨a1, a2, a3, a4, a5, a6⟩ := h1
  obtain ⟨b1, b2, b3, b4, b5, b6⟩ := h2
  exact ⟨b1.trans a1, b2.trans a2, b3.trans a3, b4.trans a4, b5.trans a5, b6.trans a6⟩

/-- The chunk loop keeps the number of buffers, the storage lengths, the dirty flags and
the materials. -/
theorem updateChunks_shape {name : String} (chunks : List Chunk) :
    ∀ (viewsLOD fin : List InstancedMesh), updateChunks name chunks viewsLOD = (fin, none) →
      fin.length = viewsLOD.length ∧
      ∀ (l : Nat) (m : InstancedMesh), viewsLOD[l]? = some m →
        ∃ m', fin[l]? = some m' ∧ sameShape m m' := by
  induction chunks with
  | nil =>
    intro viewsLOD fin h
    simp [updateChunks] at h
    subst h
    exact ⟨rfl, fun l m hm => ⟨m, hm, sameShape_refl m⟩⟩
  | cons c rest ih =>
    intro viewsLOD fin h
    rcases updateChunks_cons_ok h with ⟨_, hr⟩ | ⟨g, n, v, array, _, _, hv, ha, hr⟩
    · exact ih viewsLOD fin hr
    · obtain ⟨hlen, hall⟩ := ih _ fin hr
      refine ⟨by rw [hlen, List.length_set], ?_⟩
      intro l m hm
      have hlt : n < viewsLOD.length := by
        rcases List.getElem?_eq_some.mp hv with ⟨hlt, _⟩; exact hlt
      by_cases hnl : n = l
      · subst hnl
        have hm' : m = v := by rw [hv] at hm; exact (Option.some.inj hm).symm
        subst hm'
        obtain ⟨m', h1, h2⟩ := hall n _ (List.getElem?_set_self hlt)
        refine ⟨m', h1, sameShape_trans ?_ h2⟩
        exact ⟨typedArraySet_length ha, rfl, rfl, rfl, rfl, rfl⟩
      · exact hall l m (by rw [List.getElem?_set_ne hnl]; exact hm)

/-- With blocks of 16 elements per entity, the written part of each transform array
grows by the blocks of its own level, in chunk order. -/
theorem updateChunks_blocks {name : String} (chunks : List Chunk) :
    ∀ (viewsLOD fin : List InstancedMesh), exactBlocks name chunks →
      updateChunks name chunks viewsLOD = (fin, none) →
      ∀ (l : Nat) (m : InstancedMesh), viewsLOD[l]? = some m → 0 ≤ m.count →
        ∃ m', fin[l]? = some m' ∧
          m'.instanceMatrix.take (16 * m'.count).toNat =
            m.instanceMatrix.take (16 * m.count).toNat ++ blocksAt name l chunks := by
  induction chunks with
  | nil =>
    intro viewsLOD fin _ h l m hm _
    simp [updateChunks] at h
    subst h
    exact ⟨m, hm, by simp [blocksAt, groupsAt]⟩
  | cons c rest ih =>
    intro viewsLOD fin hex h l m hm hpos
    have hex' : exactBlocks name rest := fun c' hc' => hex c' (List.mem_cons_of_mem _ hc')
    rcases updateChunks_cons_ok h with ⟨hg, hr⟩ | ⟨g, n, v, array, hg, hl, hv, ha, hr⟩
    · obtain ⟨m', h1, h2⟩ := ih viewsLOD fin hex' hr l m hm hpos
      refine ⟨m', h1, ?_⟩
      simp [blocksAt, groupsAt, List.filterMap_cons, carriesAt_of_lookup_none l hg] at h2 ⊢
      exact h2
    · by_cases hnl : n = l
      · subst hnl
        have hlt : n < viewsLOD.length := by
          rcases List.getElem?_eq_some.mp hv with ⟨hlt, _⟩; exact hlt
        have hm' : m = v := by rw [hv] at hm; exact (Option.some.inj hm).symm
        subst hm'
        have hsz : g.entityMatrices.length = 16 * g.entities.length :=
          hex c (List.mem_cons_self _ _) g hg
        obtain ⟨m', h1, h2⟩ := ih _ fin hex' hr n _ (List.getElem?_set_self hlt)
          (by show 0 ≤ m.count + (g.entities.length : Int); omega)
        refine ⟨m', h1, ?_⟩
        rw [h2]
        obtain ⟨_, hfit, rfl⟩ := typedArraySet_eq_some ha
        have e1 : (16 * (m.count + (g.entities.length : Int))).toNat
            = (m.count * 16).toNat + g.entityMatrices.length := by omega
        have e2 : (16 * m.count).toNat = (m.count * 16).toNat := by omega
        have e3 : (m.instanceMatrix.take (m.count * 16).toNat).length = (m.count * 16).toNat := by
          rw [List.length_take]; omega
        simp only [blocksAt, groupsAt, List.filterMap_cons, carriesAt_same hg hl,
          List.map_cons, List.flatten_cons]
        show List.take (16 * (m.count + (g.entities.length : Int))).toNat
            (m.instanceMatrix.take (m.count * 16).toNat ++ g.entityMatrices ++
              m.instanceMatrix.drop ((m.count * 16).toNat + g.entityMatrices.length)) ++ _ = _
        rw [e1, e2]
        have e4 : List.take ((m.count * 16).toNat + g.entityMatrices.length)
            (m.instanceMatrix.take (m.count * 16).toNat ++ g.entityMatrices ++
              m.instanceMatrix.drop ((m.count * 16).toNat + g.entityMatrices.length))
            = m.instanceMatrix.take (m.count * 16).toNat ++ g.entityMatrices := by
          apply List.take_left'
          rw [List.length_append, e3]
        rw [e4, List.append_assoc]
      · obtain ⟨m', h1, h2⟩ := ih _ fin hex' hr l m
          (by rw [List.getElem?_set_ne hnl]; exact hm) hpos
        refine ⟨m', h1, ?_⟩
        simp [blocksAt, groupsAt, List.filterMap_cons, carriesAt_other hl hnl] at h2 ⊢
        exact h2

theorem getElem?_resetViews (viewsLOD : List InstancedMesh) (l : Nat) :
    (resetViews viewsLOD)[l]? =
      (viewsLOD[l]?).map (fun m => { m with count := 0, needsUpdate := true }) := by
  simp [resetViews, List.getElem?_map]

theorem length_resetViews (viewsLOD : List InstancedMesh) :
    (resetViews viewsLOD).length = viewsLOD.length := by
  simp [resetViews]

/-- A successful `update` is a successful run of the chunk loop on the reset buffers. -/
theorem update_ok {w : World} {visibleChunks : List Chunk}
    (h : (update w visibleChunks).error = none) :
    updateChunks w.sys.name visibleChunks (resetViews w.sys.viewsLOD) =
      ((update w visibleChunks).state.sys.viewsLOD, none) := by
  unfold update at h ⊢
  simp only at h ⊢
  rw [← h]

theorem update_length {w : World} {visibleChunks : List Chunk}
    (h : (update w visibleChunks).error = none) :
    (update w visibleChunks).state.sys.viewsLOD.length = w.sys.viewsLOD.length := by
  rw [(updateChunks_shape visibleChunks _ _ (update_ok h)).1, length_resetViews]

/-- The count of buffer `lod` after a successful `update`. -/
theorem update_countAt {w : World} {visibleChunks : List Chunk}
    (h : (update w visibleChunks).error = none) {lod : Nat} (hl : lod < w.sys.viewsLOD.length) :
    countAt (update w visibleChunks).state lod =
      some (entityTotal w.sys.name lod visibleChunks) := by
  have hm : (resetViews w.sys.viewsLOD)[lod]? =
      some { w.sys.viewsLOD[lod] with count := 0, needsUpdate := true } := by
    rw [getElem?_resetViews, List.getElem?_eq_getElem hl]; rfl
  obtain ⟨m', h1, h2⟩ := updateChunks_count visibleChunks _ _ (update_ok h) lod _ hm
  simp only [countAt, h1, Option.map_some']
  rw [h2]; simp

/-- C1. After an `update` that returns without error the view has the same buffers, and
the active count of every buffer equals the sum of `entities.length` over the visible
chunks that declare that buffer's level and carry a group under the view's name; the
other chunks contribute nothing. -/
theorem update_activeCount (w : World) (visibleChunks : List Chunk)
    (h : (update w visibleChunks).error = none) :
    (update w visibleChunks).state.sys.viewsLOD.length = w.sys.viewsLOD.length ∧
    ∀ lod, lod < w.sys.viewsLOD.length →
      countAt (update w visibleChunks).state lod =
        some (entityTotal w.sys.name lod visibleChunks) :=
  ⟨update_length h, fun _ hl => update_countAt h hl⟩

/-- The example of C1: two levels of capacity 10, A at level 0 with 3 entities, B at
level 1 with 2, C without a group: the counts are 3 and 2. -/
theorem update_activeCount_witness :
    (update exampleWorld [chunkA, chunkB, chunkC]).error = none ∧
    countAt (update exampleWorld [chunkA, chunkB, chunkC]).state 0 = some 3 ∧
    countAt (update exampleWorld [chunkA, chunkB, chunkC]).state 1 = some 2 :=
  ⟨rfl,
   (update_activeCount exampleWorld [chunkA, chunkB, chunkC] rfl).2 0 (by decide),
   (update_activeCount exampleWorld [chunkA, chunkB, chunkC] rfl).2 1 (by decide)⟩

/-- The slots that lie inside a common written part agree. -/
theorem slot_eq_of_take {array blocks : List Int} {n k : Nat}
    (h : array.take n = blocks) (hk : 16 * k + 16 ≤ n) :
    slot array k = slot blocks k := by
  have e : array.take (16 * k + 16) = blocks.take (16 * k + 16) := by
    rw [← h, List.take_take, Nat.min_eq_left hk]
  unfold slot
  rw [List.take_drop, List.take_drop, e]

theorem blocksAt_length {name : String} (l : Nat) (chunks : List Chunk)
    (hex : exactBlocks name chunks) :
    ((blocksAt name l chunks).length : Int) = 16 * entityTotal name l chunks := by
  induction chunks with
  | nil => simp [blocksAt, entityTotal, groupsAt]
  | cons c rest ih =>
    have ih' := ih (fun c' hc' => hex c' (List.mem_cons_of_mem _ hc'))
    cases hc : carriesAt name l c with
    | none =>
      simp only [blocksAt, entityTotal, groupsAt, List.filterMap_cons, hc] at ih' ⊢
      exact ih'
    | some g =>
      have hg : c.entityGroups.lookup name = some g := by
        unfold carriesAt at hc
        cases hlk : c.entityGroups.lookup name with
        | none => simp [hlk] at hc
        | some g' =>
          simp only [hlk] at hc
          split at hc
          · rw [Option.some.inj hc]
          · cases hc
      have hsz := hex c (List.mem_cons_self _ _) g hg
      simp only [blocksAt, entityTotal, groupsAt, List.filterMap_cons, hc, List.map_cons,
        List.flatten_cons, List.length_append, List.sum_cons] at ih' ⊢
      push_cast
      rw [ih', hsz]
      push_cast
      ring

/-- The written part of buffer `lod` after a successful `update` on exact blocks. -/
theorem update_written {w : World} {visibleChunks : List Chunk}
    (hex : exactBlocks w.sys.name visibleChunks)
    (h : (update w visibleChunks).error = none) {lod : Nat} (hl : lod < w.sys.viewsLOD.length) :
    ∃ m, (update w visibleChunks).state.sys.viewsLOD[lod]? = some m ∧
      m.count = entityTotal w.sys.name lod visibleChunks ∧
      m.instanceMatrix.take (16 * m.count).toNat = blocksAt w.sys.name lod visibleChunks := by
  have hm : (resetViews w.sys.viewsLOD)[lod]? =
      some { w.sys.viewsLOD[lod] with count := 0, needsUpdate := true } := by
    rw [getElem?_resetViews, List.getElem?_eq_getElem hl]; rfl
  obtain ⟨m1, h1, h2⟩ := updateChunks_count visibleChunks _ _ (update_ok h) lod _ hm
  obtain ⟨m2, h3, h4⟩ := updateChunks_blocks visibleChunks _ _ hex (update_ok h) lod _ hm
    (le_refl _)
  have e : m2 = m1 := by rw [h1] at h3; exact (Option.some.inj h3).symm
  subst e
  refine ⟨m2, h1, by rw [h2]; simp, ?_⟩
  rw [h4]; simp

/-- C2. After an `update` that returns without error on chunks whose blocks have exactly
16 elements per entity, in every buffer the part of the transform array below the active
count is the concatenation, in chunk order, of the blocks of the chunks that declare the
buffer's level and carry the view's group; so every slot `k` below the active count holds
the `k`-th transform (16 elements) of that concatenation. -/
theorem update_transforms (w : World) (visibleChunks : List Chunk)
    (hex : exactBlocks w.sys.name visibleChunks)
    (h : (update w visibleChunks).error = none) (lod : Nat) (hl : lod < w.sys.viewsLOD.length) :
    ∃ m, (update w visibleChunks).state.sys.viewsLOD[lod]? = some m ∧
      m.instanceMatrix.take (16 * m.count).toNat = blocksAt w.sys.name lod visibleChunks ∧
      ∀ k : Nat, (k : Int) < m.count →
        slot m.instanceMatrix k = slot (blocksAt w.sys.name lod visibleChunks) k ∧
        (slot (blocksAt w.sys.name lod visibleChunks) k).length = 16 := by
  obtain ⟨m, h1, h2, h3⟩ := update_written hex h hl
  refine ⟨m, h1, h3, ?_⟩
  intro k hk
  have hlen := blocksAt_length lod visibleChunks hex
  rw [← h2] at hlen
  refine ⟨slot_eq_of_take h3 (by omega), ?_⟩
  unfold slot
  rw [List.length_take, List.length_drop]
  omega

/-- The example of C2: after `update([A, B, C])` the first three slots of buffer 0 hold
chunk A's block. -/
theorem update_transforms_witness :
    ∃ m, (update exampleWorld [chunkA, chunkB, chunkC]).state.sys.viewsLOD[0]? = some m ∧
      m.instanceMatrix.take (16 * m.count).toNat = List.replicate 48 1 ∧
      ∀ k : Nat, (k : Int) < m.count →
        slot m.instanceMatrix k = slot (List.replicate 48 1) k ∧
        (slot (List.replicate 48 1) k).length = 16 :=
  update_transforms exampleWorld [chunkA, chunkB, chunkC] (by decide) rfl 0 (by decide)

/-- C3. The active counts after `update(Y)` are a function of `Y` alone: after
`update(X)` and then `update(Y)` every buffer's count equals the count that `update(Y)`
produces from any other state `s'` of the same view (same name, same number of buffers),
whatever its tracked objects and previous counts; both equal the entity total of `Y`. -/
theorem update_counts_only_last (s s' : World) (X Y : List Chunk)
    (hX : (update s X).error = none)
    (hY : (update (update s X).state Y).error = none)
    (hname : s'.sys.name = s.sys.name)
    (hlen : s'.sys.viewsLOD.length = s.sys.viewsLOD.length)
    (hY' : (update s' Y).error = none) (lod : Nat) :
    countAt (update (update s X).state Y).state lod = countAt (update s' Y).state lod ∧
    (lod < s.sys.viewsLOD.length →
      countAt (update (update s X).state Y).state lod =
        some (entityTotal s.sys.name lod Y)) := by
  have hl1 : (update s X).state.sys.viewsLOD.length = s.sys.viewsLOD.length := update_length hX
  have hn1 : (update s X).state.sys.name = s.sys.name := rfl
  by_cases hl : lod < s.sys.viewsLOD.length
  · have e1 := @update_countAt _ _ hY lod (by rw [hl1]; exact hl)
    have e2 := @update_countAt _ _ hY' lod (by rw [hlen]; exact hl)
    rw [hn1] at e1
    rw [hname] at e2
    exact ⟨by rw [e1, e2], fun _ => e1⟩
  · have g1 : (update (update s X).state Y).state.sys.viewsLOD.length ≤ lod := by
      rw [update_length hY, hl1]; omega
    have g2 : (update s' Y).state.sys.viewsLOD.length ≤ lod := by
      rw [update_length hY', hlen]; omega
    refine ⟨?_, fun h => absurd h hl⟩
    simp only [countAt, List.getElem?_eq_none g1, List.getElem?_eq_none g2]

/-- An instance of C3: the counts after `update([A])` then `update([B, C])` are those of
`update([B, C])` on a view holding a registered object. -/
theorem update_counts_only_last_witness :
    countAt (update (update exampleWorld [chunkA]).state [chunkB, chunkC]).state 0 =
      countAt (update (register exampleWorld 1).state [chunkB, chunkC]).state 0 ∧
    (0 < exampleWorld.sys.viewsLOD.length →
      countAt (update (update exampleWorld [chunkA]).state [chunkB, chunkC]).state 0 =
        some (entityTotal exampleWorld.sys.name 0 [chunkB, chunkC])) :=
  update_counts_only_last exampleWorld (register exampleWorld 1).state [chunkA]
    [chunkB, chunkC] rfl rfl rfl rfl rfl 0

/-- Reading an element after an overwrite of `source.length` elements at `offset`. -/
theorem getElem?_overwrite (target source : List Int) (offset i : Nat)
    (h : offset + source.length ≤ target.length) :
    (target.take offset ++ source ++ target.drop (offset + source.length))[i]? =
      if offset ≤ i ∧ i < offset + source.length then source[i - offset]? else target[i]? := by
  have hlen : (target.take offset).length = offset := by
    rw [List.length_take]; omega
  by_cases h1 : i < offset
  · rw [if_neg (by omega), List.append_assoc,
      List.getElem?_append_left (by rw [hlen]; exact h1), List.getElem?_take, if_pos h1]
  · by_cases h2 : i < offset + source.length
    · rw [if_pos ⟨by omega, h2⟩, List.append_assoc,
        List.getElem?_append_right (by rw [hlen]; omega), hlen,
        List.getElem?_append_left (by omega)]
    · rw [if_neg (by omega),
        List.getElem?_append_right (by rw [List.length_append, hlen]; omega),
        List.length_append, hlen, List.getElem?_drop]
      congr 1
      omega

theorem InstancedMesh.eq_of_fields {a b : InstancedMesh} (h1 : a.count = b.count)
    (h2 : a.instanceMatrix = b.instanceMatrix) (h3 : a.needsUpdate = b.needsUpdate)
    (h4 : a.material = b.material) (h5 : a.customDepthMaterial = b.customDepthMaterial)
    (h6 : a.customDistanceMaterial = b.customDistanceMaterial)
    (h7 : a.depthPrepassMaterial = b.depthPrepassMaterial) : a = b := by
  cases a; cases b; simp_all

/-- A second run of the chunk loop from buffers related to the first run's buffers by
`Rerun` ends in the first run's result. -/
theorem updateChunks_rerun {name : String} (chunks : List Chunk) :
    ∀ (ms1 ms2 fin : List InstancedMesh), updateChunks name chunks ms1 = (fin, none) →
      ms2.length = ms1.length →
      (∀ (l : Nat) (a b f : InstancedMesh), ms1[l]? = some a → ms2[l]? = some b →
        fin[l]? = some f → Rerun f a b) →
      updateChunks name chunks ms2 = (fin, none) := by
  induction chunks with
  | nil =>
    intro ms1 ms2 fin h hlen hrel
    simp [updateChunks] at h
    subst h
    simp only [updateChunks, Prod.mk.injEq, and_true]
    apply List.ext_getElem?
    intro l
    by_cases hl : l < ms1.length
    · have hl2 : l < ms2.length := by omega
      rw [List.getElem?_eq_getElem hl, List.getElem?_eq_getElem hl2]
      obtain ⟨r1, _, r3, r4, r5, r6, r7, r8⟩ := hrel l ms1[l] ms2[l] ms1[l]
        (List.getElem?_eq_getElem hl) (List.getElem?_eq_getElem hl2)
        (List.getElem?_eq_getElem hl)
      congr 1
      refine InstancedMesh.eq_of_fields r1 ?_ r3 r4 r5 r6 r7
      apply List.ext_getElem?
      intro i
      rcases r8 i with h' | h' <;> exact h'
    · rw [List.getElem?_eq_none (by omega), List.getElem?_eq_none (by omega)]
  | cons c rest ih =>
    intro ms1 ms2 fin h hlen hrel
    have hfin := (updateChunks_shape (c :: rest) ms1 fin h).1
    rcases updateChunks_cons_ok h with ⟨hg, hr⟩ | ⟨g, n, v, array, hg, hl, hv, ha, hr⟩
    · rw [updateChunks]
      simp only [hg]
      exact ih ms1 ms2 fin hr hlen hrel
    · have hlt : n < ms1.length := by
        rcases List.getElem?_eq_some.mp hv with ⟨hlt, _⟩; exact hlt
      have hlt2 : n < ms2.length := by omega
      have hltf : n < fin.length := by omega
      have hb : ms2[n]? = some ms2[n] := List.getElem?_eq_getElem hlt2
      obtain ⟨r1, r2, r3, r4, r5, r6, r7, r8⟩ := hrel n v ms2[n] fin[n] hv hb
        (List.getElem?_eq_getElem hltf)
      obtain ⟨hoff, hfit, harr⟩ := typedArraySet_eq_some ha
      have hset2 : typedArraySet ms2[n].instanceMatrix g.entityMatrices (ms2[n].count * 16) =
          some (ms2[n].instanceMatrix.take (v.count * 16).toNat ++ g.entityMatrices ++
            ms2[n].instanceMatrix.drop ((v.count * 16).toNat + g.entityMatrices.length)) := by
        unfold typedArraySet
        rw [r1, r2, if_neg]
        simp only [not_or, not_lt]
        exact ⟨hoff, by omega⟩
      rw [updateChunks]
      simp only [hg, viewAt_eq_some.mpr ⟨hl, hb⟩, hset2]
      apply ih _ _ fin hr (by rw [List.length_set, List.length_set]; exact hlen)
      intro l a b f h1 h2 h3
      by_cases hnl : n = l
      · subst hnl
        rw [List.getElem?_set_self hlt] at h1
        rw [List.getElem?_set_self hlt2] at h2
        have hf : f = fin[n] := by
          rw [List.getElem?_eq_getElem hltf] at h3; exact (Option.some.inj h3).symm
        have h1' := (Option.some.inj h1).symm
        have h2' := (Option.some.inj h2).symm
        subst h1' h2' hf
        refine ⟨by simp only [r1], ?_, r3, r4, r5, r6, r7, ?_⟩
        · simp only [harr, List.length_append, List.length_take, List.length_drop, r2]
        · intro i
          simp only [harr]
          rw [getElem?_overwrite _ _ _ _ (by omega), getElem?_overwrite _ _ _ _ hfit]
          split
          · left; rfl
          · exact r8 i
      · rw [List.getElem?_set_ne hnl] at h1 h2
        exact hrel l a b f h1 h2 h3

/-- C4. `update` is idempotent: when `update(visibleChunks)` returns without error, a
second `update(visibleChunks)` on the resulting state returns without error too and
leaves that state as it is (transform arrays, active counts, dirty flags and everything
else). -/
theorem update_idempotent (s : World) (visibleChunks : List Chunk)
    (h : (update s visibleChunks).error = none) :
    (update (update s visibleChunks).state visibleChunks).error = none ∧
    (update (update s visibleChunks).state visibleChunks).state =
      (update s visibleChunks).state := by
  have hrun := update_ok h
  obtain ⟨hlen, hshape⟩ := updateChunks_shape visibleChunks _ _ hrun
  have key : updateChunks s.sys.name visibleChunks
      (resetViews (update s visibleChunks).state.sys.viewsLOD) =
      ((update s visibleChunks).state.sys.viewsLOD, none) := by
    apply updateChunks_rerun visibleChunks _ _ _ hrun
    · rw [length_resetViews, hlen]
    · intro l a b f h1 h2 h3
      obtain ⟨f', hf', s1, s2, s3, s4, s5, s6⟩ := hshape l a h1
      have e : f' = f := by rw [h3] at hf'; exact (Option.some.inj hf').symm
      subst e
      rw [getElem?_resetViews, h3] at h2
      have hb := (Option.some.inj h2).symm
      rw [getElem?_resetViews] at h1
      cases hv : s.sys.viewsLOD[l]? with
      | none => rw [hv] at h1; cases h1
      | some v =>
        rw [hv] at h1
        have ha := (Option.some.inj h1).symm
        subst ha hb
        exact ⟨rfl, s1, s2.symm, rfl, rfl, rfl, rfl, fun i => Or.inr rfl⟩
  have hname : (update s visibleChunks).state.sys.name = s.sys.name := rfl
  constructor
  · show (updateChunks (update s visibleChunks).state.sys.name visibleChunks
      (resetViews (update s visibleChunks).state.sys.viewsLOD)).2 = none
    rw [hname, key]
  · show ({ (update s visibleChunks).state with
        sys := { (update s visibleChunks).state.sys with
          viewsLOD := (updateChunks (update s visibleChunks).state.sys.name visibleChunks
            (resetViews (update s visibleChunks).state.sys.viewsLOD)).1 } } : World) = _
    rw [hname, key]

/-- An instance of C4 on the example view. -/
theorem update_idempotent_witness :
    (update (update exampleWorld [chunkA, chunkB, chunkC]).state
      [chunkA, chunkB, chunkC]).error = none ∧
    (update (update exampleWorld [chunkA, chunkB, chunkC]).state
      [chunkA, chunkB, chunkC]).state =
      (update exampleWorld [chunkA, chunkB, chunkC]).state :=
  update_idempotent exampleWorld [chunkA, chunkB, chunkC] rfl

theorem register_full {w : World} (object : Nat)
    (h : w.sys.maxObjectsCount ≤ (w.sys.objects.length : Int)) :
    register w object = { state := w, error := some .capacityExceeded } := by
  unfold register
  rw [if_pos (by exact h)]

theorem register_room {w : World} (object : Nat) {view0 : InstancedMesh}
    {rest : List InstancedMesh}
    (h : (w.sys.objects.length : Int) < w.sys.maxObjectsCount)
    (hv : w.sys.viewsLOD = view0 :: rest) :
    register w object =
      { state :=
          { sys := { w.sys with
                      objects := w.sys.objects ++ [object]
                      viewsLOD := { view0 with count := view0.count + 1 } :: rest }
            heap := Function.update w.heap object
              { w.heap object with instanceIndex := some view0.count, updateView := true } }
        error := none } := by
  unfold register
  rw [if_neg (by simp only [ge_iff_le, not_le]; exact h)]
  simp only [hv]

theorem register_room_nil {w : World} (object : Nat)
    (h : (w.sys.objects.length : Int) < w.sys.maxObjectsCount)
    (hv : w.sys.viewsLOD = []) :
    register w object =
      { state := { w with sys := { w.sys with objects := w.sys.objects ++ [object] } }
        error := some .typeError } := by
  unfold register
  rw [if_neg (by simp only [ge_iff_le, not_le]; exact h)]
  simp only [hv]

theorem indexOf_of_not_mem {objects : List Nat} {object : Nat} (h : object ∉ objects) :
    indexOf objects object = -1 := by
  simp [indexOf, h]

theorem indexOf_of_mem {objects : List Nat} {object : Nat} (h : object ∈ objects) :
    indexOf objects object = (objects.indexOf object : Int) := by
  simp [indexOf, h]

theorem unregister_untracked {w : World} {object : Nat} (h : object ∉ w.sys.objects) :
    unregister w object = { state := w, error := none } := by
  unfold unregister
  simp only [indexOf_of_not_mem h]
  rw [if_neg (by decide)]

theorem unregister_tracked {w : World} {object n : Nat} {viewLOD : InstancedMesh}
    (h : object ∈ w.sys.objects)
    (hv : viewAt w.sys.viewsLOD (w.heap object).currentLOD = some (n, viewLOD)) :
    unregister w object =
      { state := { w with sys := { w.sys with
          objects := w.sys.objects.eraseIdx (w.sys.objects.indexOf object)
          viewsLOD := w.sys.viewsLOD.set n { viewLOD with count := viewLOD.count - 1 } } }
        error := none } := by
  unfold unregister
  simp only [indexOf_of_mem h, hv]
  rw [if_pos (by omega)]
  simp

theorem unregister_tracked_undefined {w : World} {object : Nat}
    (h : object ∈ w.sys.objects)
    (hv : viewAt w.sys.viewsLOD (w.heap object).currentLOD = none) :
    unregister w object =
      { state := { w with sys := { w.sys with
          objects := w.sys.objects.eraseIdx (w.sys.objects.indexOf object) } }
        error := some .typeError } := by
  unfold unregister
  simp only [indexOf_of_mem h, hv]
  rw [if_pos (by omega)]
  simp

/-- C6. On a view with at least one buffer and room for another object,
`register(object)` returns without error; the object's `instanceIndex` is buffer 0's
count before the call, buffer 0's count is one greater than before, the object is the
last element of the tracked list, and every other buffer keeps its count. -/
theorem register_succeeds (w : World) (object : Nat)
    (hlod : 0 < w.sys.viewsLOD.length)
    (hroom : (w.sys.objects.length : Int) < w.sys.maxObjectsCount) :
    (register w object).error = none ∧
    ∃ c : Int, countAt w 0 = some c ∧
      ((register w object).state.heap object).instanceIndex = some c ∧
      countAt (register w object).state 0 = some (c + 1) ∧
      (register w object).state.sys.objects = w.sys.objects ++ [object] ∧
      (register w object).state.sys.viewsLOD.length = w.sys.viewsLOD.length ∧
      ∀ lod, lod ≠ 0 → countAt (register w object).state lod = countAt w lod := by
  cases hv : w.sys.viewsLOD with
  | nil => rw [hv] at hlod; exact absurd hlod (by simp)
  | cons view0 rest =>
    rw [register_room object hroom hv]
    refine ⟨rfl, view0.count, by simp [countAt, hv], by simp, by simp [countAt], rfl,
      by simp, ?_⟩
    intro lod hne
    cases lod with
    | zero => exact absurd rfl hne
    | succ k => simp [countAt, hv]

/-- An instance of C6: registering object 1 on the example view. -/
theorem register_succeeds_witness :
    (register exampleWorld 1).error = none ∧
    ∃ c : Int, countAt exampleWorld 0 = some c ∧
      ((register exampleWorld 1).state.heap 1).instanceIndex = some c ∧
      countAt (register exampleWorld 1).state 0 = some (c + 1) ∧
      (register exampleWorld 1).state.sys.objects = exampleWorld.sys.objects ++ [1] ∧
      (register exampleWorld 1).state.sys.viewsLOD.length = exampleWorld.sys.viewsLOD.length ∧
      ∀ lod, lod ≠ 0 → countAt (register exampleWorld 1).state lod = countAt exampleWorld lod :=
  register_succeeds exampleWorld 1 (by decide) (by decide)

/-- C7. On a view with at least one buffer, `register(object)` throws exactly when the
tracked list already holds `maxObjectsCount` objects or more, the exception is then the
capacity error, and the whole state (tracked list, counts, the object's fields) is as
before the call. -/
theorem register_fails_iff (w : World) (object : Nat) (hlod : 0 < w.sys.viewsLOD.length) :
    ((register w object).error = some .capacityExceeded ↔
      w.sys.maxObjectsCount ≤ (w.sys.objects.length : Int)) ∧
    ((register w object).error ≠ none ↔
      w.sys.maxObjectsCount ≤ (w.sys.objects.length : Int)) ∧
    ((register w object).error ≠ none → (register w object).state = w) := by
  by_cases hfull : w.sys.maxObjectsCount ≤ (w.sys.objects.length : Int)
  · rw [register_full object hfull]
    simp [hfull]
  · cases hv : w.sys.viewsLOD with
    | nil => rw [hv] at hlod; exact absurd hlod (by simp)
    | cons view0 rest =>
      rw [register_room object (by omega) hv]
      simp [hfull]

/-- An instance of C7: the one-object view, once full, rejects a further registration. -/
theorem register_fails_iff_witness :
    ((register fullWorld 1).error = some .capacityExceeded ↔
      fullWorld.sys.maxObjectsCount ≤ (fullWorld.sys.objects.length : Int)) ∧
    ((register fullWorld 1).error ≠ none ↔
      fullWorld.sys.maxObjectsCount ≤ (fullWorld.sys.objects.length : Int)) ∧
    ((register fullWorld 1).error ≠ none → (register fullWorld 1).state = fullWorld) :=
  register_fails_iff fullWorld 1 (by decide)

theorem newMeshView_ok {meshModel : MeshModel} {count : Int} {m : InstancedMesh}
    (h : newMeshView meshModel count = .ok m) :
    0 ≤ count ∧ m.count = 0 ∧ m.instanceMatrix.length = count.toNat * 16 := by
  unfold newMeshView at h
  split at h
  · cases h
  · rename_i hc
    cases h
    exact ⟨by omega, rfl, by simp⟩

theorem buildViews_ok (meshModels : List MeshModel) (count : Int) :
    ∀ views, buildViews meshModels count = .ok views →
      views.length = meshModels.length ∧
      ∀ m ∈ views, 0 ≤ count ∧ m.count = 0 ∧ m.instanceMatrix.length = count.toNat * 16 := by
  induction meshModels with
  | nil =>
    intro views h
    simp only [buildViews] at h
    cases h
    simp
  | cons meshModel rest ih =>
    intro views h
    rw [buildViews] at h
    cases h1 : newMeshView meshModel count with
    | error e => simp [h1] at h
    | ok m =>
      cases h2 : buildViews rest count with
      | error e => simp [h1, h2] at h
      | ok vs =>
        simp only [h1, h2] at h
        cases h
        obtain ⟨l1, l2⟩ := ih vs h2
        refine ⟨by simp [l1], ?_⟩
        intro m' hm'
        rcases List.mem_cons.mp hm' with rfl | hm'
        · exact newMeshView_ok h1
        · exact l2 m' hm'

/-- What a constructed view looks like. -/
theorem construct_ok {meshModels : List MeshModel} {count : Int} {name : String}
    {sys : LODInstancedViewSystem} (h : construct meshModels count name = .ok sys) :
    sys.maxObjectsCount = count ∧ sys.name = name ∧ sys.objects = [] ∧
    sys.viewsLOD.length = meshModels.length ∧
    ∀ m ∈ sys.viewsLOD, 0 ≤ count ∧ m.count = 0 ∧ m.instanceMatrix.length = count.toNat * 16 := by
  unfold construct at h
  cases hb : buildViews meshModels count with
  | error e => simp [hb] at h
  | ok views =>
    simp only [hb] at h
    cases h
    obtain ⟨l1, l2⟩ := buildViews_ok meshModels count views hb
    exact ⟨rfl, rfl, rfl, l1, l2⟩

/-- No call changes `maxObjectsCount`, and no call, failing or not, lets the tracked
list grow beyond it. -/
theorem call_tracked_le (w : World) (c : Call)
    (h : (w.sys.objects.length : Int) ≤ w.sys.maxObjectsCount) :
    (call w c).state.sys.maxObjectsCount = w.sys.maxObjectsCount ∧
    ((call w c).state.sys.objects.length : Int) ≤ w.sys.maxObjectsCount := by
  cases c with
  | register object =>
    simp only [call]
    by_cases hfull : w.sys.maxObjectsCount ≤ (w.sys.objects.length : Int)
    · rw [register_full object hfull]; exact ⟨rfl, h⟩
    · cases hv : w.sys.viewsLOD with
      | nil =>
        rw [register_room_nil object (by omega) hv]
        refine ⟨rfl, ?_⟩
        simp only [List.length_append, List.length_singleton]
        push_cast; omega
      | cons view0 rest =>
        rw [register_room object (by omega) hv]
        refine ⟨rfl, ?_⟩
        simp only [List.length_append, List.length_singleton]
        push_cast; omega
  | unregister object =>
    simp only [call]
    by_cases hmem : object ∈ w.sys.objects
    · have hle : ((w.sys.objects.eraseIdx (w.sys.objects.indexOf object)).length : Int)
          ≤ w.sys.maxObjectsCount := by
        rw [List.length_eraseIdx]
        split <;> omega
      cases hv : viewAt w.sys.viewsLOD (w.heap object).currentLOD with
      | none => rw [unregister_tracked_undefined hmem hv]; exact ⟨rfl, hle⟩
      | some p =>
        obtain ⟨n, v⟩ := p
        rw [unregister_tracked hmem hv]; exact ⟨rfl, hle⟩
    · rw [unregister_untracked hmem]; exact ⟨rfl, h⟩
  | setObjectMatrix object =>
    simp only [call, setObjectMatrix]
    cases viewAt w.sys.viewsLOD (w.heap object).currentLOD with
    | none => exact ⟨rfl, h⟩
    | some p => exact ⟨rfl, h⟩
  | update visibleChunks => exact ⟨rfl, h⟩

theorem runCalls_tracked_le (calls : List Call) :
    ∀ w : World, (w.sys.objects.length : Int) ≤ w.sys.maxObjectsCount →
      (runCalls w calls).sys.maxObjectsCount = w.sys.maxObjectsCount ∧
      ((runCalls w calls).sys.objects.length : Int) ≤ w.sys.maxObjectsCount := by
  induction calls with
  | nil => intro w h; exact ⟨rfl, h⟩
  | cons c cs ih =>
    intro w h
    obtain ⟨h1, h2⟩ := call_tracked_le w c h
    obtain ⟨h3, h4⟩ := ih (call w c).state (by rw [h1]; exact h2)
    rw [h1] at h3 h4
    exact ⟨h3, h4⟩

/-- C9. In every state reached from a freshly constructed view with
`maxObjectsCount ≥ 0` by any sequence of `register`, `unregister`, `setObjectMatrix` and
`update` calls, failing calls included, the number of tracked objects is at most
`maxObjectsCount` (which no call changes). -/
theorem tracked_le_maxObjectsCount (meshModels : List MeshModel) (count : Int)
    (name : String) (sys : LODInstancedViewSystem) (heap : Nat → Object3D)
    (calls : List Call)
    (hnew : construct meshModels count name = .ok sys) (hcount : 0 ≤ count) :
    (runCalls { sys := sys, heap := heap } calls).sys.maxObjectsCount = count ∧
    ((runCalls { sys := sys, heap := heap } calls).sys.objects.length : Int) ≤ count := by
  obtain ⟨h1, _, h3, _, _⟩ := construct_ok hnew
  have := runCalls_tracked_le calls { sys := sys, heap := heap }
    (by simp only [h3, h1]; exact hcount)
  simp only [h1] at this
  exact this

/-- An instance of C9: on the one-object view a second registration fails and an
unregistration of an object without `currentLOD` fails after removing it; the tracked
list never holds more than one object. -/
theorem tracked_le_maxObjectsCount_witness :
    (runCalls { sys := tinySys, heap := exampleHeap }
      [.register 0, .register 1, .unregister 0, .register 2,
        .update [chunkA]]).sys.maxObjectsCount = 1 ∧
    ((runCalls { sys := tinySys, heap := exampleHeap }
      [.register 0, .register 1, .unregister 0, .register 2,
        .update [chunkA]]).sys.objects.length : Int) ≤ 1 :=
  tracked_le_maxObjectsCount [exampleModel, exampleModel] 1 "trees" tinySys exampleHeap _ rfl
    (by decide)

/-- A run of registrations that fits into the remaining room: every call returns, the
objects are appended in order, buffer 0's count grows by their number, and the `i`-th of
them holds the slot `count + i`. -/
theorem runCalls_register (os : List Nat) :
    ∀ (w : World) (view0 : InstancedMesh) (rest : List InstancedMesh),
      w.sys.viewsLOD = view0 :: rest →
      (w.sys.objects.length : Int) + os.length ≤ w.sys.maxObjectsCount → os.Nodup →
      allReturn w (os.map Call.register) ∧
      (runCalls w (os.map Call.register)).sys =
        { w.sys with
          objects := w.sys.objects ++ os
          viewsLOD := { view0 with count := view0.count + os.length } :: rest } ∧
      (∀ (i : Nat) (o : Nat), os[i]? = some o →
        ((runCalls w (os.map Call.register)).heap o).instanceIndex = some (view0.count + i)) ∧
      (∀ o, o ∉ os → (runCalls w (os.map Call.register)).heap o = w.heap o) := by
  induction os with
  | nil =>
    intro w view0 rest hv _ _
    refine ⟨trivial, ?_, by simp, fun _ _ => rfl⟩
    simp only [List.map_nil, runCalls, List.append_nil, List.length_nil, Int.ofNat_zero,
      add_zero, ← hv]
  | cons o os ih =>
    intro w view0 rest hv hroom hd
    have hroom1 : (w.sys.objects.length : Int) < w.sys.maxObjectsCount := by
      simp only [List.length_cons] at hroom; push_cast at hroom; omega
    obtain ⟨hnot, hd'⟩ := List.nodup_cons.mp hd
    have hreg := register_room o hroom1 hv
    have hroom' : (((register w o).state.sys.objects.length : Nat) : Int) + os.length
        ≤ (register w o).state.sys.maxObjectsCount := by
      rw [hreg]
      simp only [List.length_append, List.length_singleton, List.length_cons,
        List.length_nil] at hroom ⊢
      push_cast at hroom ⊢; omega
    obtain ⟨i1, i2, i3, i4⟩ := ih (register w o).state { view0 with count := view0.count + 1 }
      rest (by rw [hreg]) hroom' hd'
    simp only [List.map_cons, allReturn, runCalls, call]
    refine ⟨⟨by rw [hreg], i1⟩, ?_, ?_, ?_⟩
    · rw [i2, hreg]
      simp only [List.append_assoc, List.singleton_append, List.length_cons]
      push_cast
      simp only [add_assoc, add_comm (1 : Int)]
    · intro i o' hi
      cases i with
      | zero =>
        simp only [List.getElem?_cons_zero, Option.some.injEq] at hi
        subst hi
        rw [i4 o hnot, hreg]
        simp
      | succ k =>
        simp only [List.getElem?_cons_succ] at hi
        rw [i3 k o' hi]
        push_cast
        simp only [add_assoc, add_comm (1 : Int)]
    · intro o' ho'
      simp only [List.mem_cons, not_or] at ho'
      rw [i4 o' ho'.2, hreg]
      simp [Function.update_noteq ho'.1]

/-- C8. On a freshly constructed view with at least one level and
`maxObjectsCount = N`, `N` registrations of pairwise distinct objects all return without
error, the `i`-th registered object (from 0) receives `instanceIndex = i` (so the slots
are strictly increasing and pairwise distinct), and one more registration, of any object,
fails with the capacity error. -/
theorem register_upto_capacity (meshModels : List MeshModel) (count : Int) (name : String)
    (sys : LODInstancedViewSystem) (heap : Nat → Object3D) (os : List Nat)
    (hnew : construct meshModels count name = .ok sys) (hlod : meshModels ≠ [])
    (hN : (os.length : Int) = count) (hd : os.Nodup) :
    allReturn { sys := sys, heap := heap } (os.map Call.register) ∧
    (∀ (i : Nat) (o : Nat), os[i]? = some o →
      ((runCalls { sys := sys, heap := heap } (os.map Call.register)).heap o).instanceIndex
        = some (i : Int)) ∧
    ∀ extra : Nat,
      (register (runCalls { sys := sys, heap := heap } (os.map Call.register)) extra).error
        = some .capacityExceeded := by
  obtain ⟨h1, _, h3, h4, h5⟩ := construct_ok hnew
  cases hv : sys.viewsLOD with
  | nil =>
    rw [hv] at h4
    exact absurd (List.length_eq_zero.mp h4.symm) hlod
  | cons view0 rest =>
    have h0 : view0.count = 0 := (h5 view0 (by rw [hv]; exact List.mem_cons_self _ _)).2.1
    obtain ⟨r1, r2, r3, _⟩ := runCalls_register os { sys := sys, heap := heap } view0 rest hv
      (by simp only [h3, h1, List.length_nil]; push_cast; omega) hd
    refine ⟨r1, ?_, ?_⟩
    · intro i o hi
      rw [r3 i o hi, h0, zero_add]
    · intro extra
      rw [register_full extra (by rw [r2]; simp only [h3, h1, List.nil_append]; omega)]

/-- An instance of C8 on the example view: ten distinct objects get the slots 0 to 9 and
an eleventh registration fails. -/
theorem register_upto_capacity_witness :
    allReturn { sys := exampleSys, heap := exampleHeap }
      ((List.range 10).map Call.register) ∧
    (∀ (i : Nat) (o : Nat), (List.range 10)[i]? = some o →
      ((runCalls { sys := exampleSys, heap := exampleHeap }
        ((List.range 10).map Call.register)).heap o).instanceIndex = some (i : Int)) ∧
    ∀ extra : Nat,
      (register (runCalls { sys := exampleSys, heap := exampleHeap }
        ((List.range 10).map Call.register)) extra).error = some .capacityExceeded :=
  register_upto_capacity [exampleModel, exampleModel] 10 "trees" exampleSys exampleHeap
    (List.range 10) rfl (by decide) (by decide) (by decide)

/-- C10, the code fails the claim: `register` counts the object into buffer
`defaultLOD = 0` and installs `updateView`, but never records that level in
`currentLOD`, which `unregister` and `setObjectMatrix` read.  Object 0 of the example has
no `currentLOD`, as a plain `Object3D`: `register` returns, `currentLOD` is still absent,
the installed `updateView` (that is `setObjectMatrix`) throws a TypeError, and
`unregister` throws a TypeError after removing the object, leaving buffer 0's count at 1.
Object 2 has `currentLOD = 1`: it is counted into buffer 0, keeps `currentLOD = 1`, and
the following `unregister` returns and leaves the counts at 1 and -1 instead of 0 and 0. -/
theorem register_never_records_currentLOD :
    countAt exampleWorld 0 = some 0 ∧ countAt exampleWorld 1 = some 0 ∧
    (exampleWorld.heap 0).currentLOD = none ∧
    (register exampleWorld 0).error = none ∧
    ((register exampleWorld 0).state.heap 0).currentLOD = none ∧
    ((register exampleWorld 0).state.heap 0).updateView = true ∧
    (setObjectMatrix (register exampleWorld 0).state 0).error = some .typeError ∧
    (unregister (register exampleWorld 0).state 0).error = some .typeError ∧
    (unregister (register exampleWorld 0).state 0).state.sys.objects = [] ∧
    countAt (unregister (register exampleWorld 0).state 0).state 0 = some 1 ∧
    (exampleWorld.heap 2).currentLOD = some 1 ∧
    (register exampleWorld 2).error = none ∧
    ((register exampleWorld 2).state.heap 2).currentLOD = some 1 ∧
    countAt (register exampleWorld 2).state 0 = some 1 ∧
    (unregister (register exampleWorld 2).state 2).error = none ∧
    countAt (unregister (register exampleWorld 2).state 2).state 0 = some 1 ∧
    countAt (unregister (register exampleWorld 2).state 2).state 1 = some (-1) :=
  ⟨rfl, rfl, rfl, rfl, rfl, rfl, rfl, rfl, rfl, rfl, rfl, rfl, rfl, rfl, rfl, rfl, rfl⟩

theorem storeElement_length (array : List Int) (index value : Int) :
    (storeElement array index value).length = array.length := by
  unfold storeElement
  split <;> simp

theorem toArray_length (te : Fin 16 → Int) (array : List Int) (offset : Int) :
    (toArray te array offset).length = array.length := by
  unfold toArray
  generalize List.finRange 16 = js
  induction js generalizing array with
  | nil => rfl
  | cons j js ih => rw [List.foldl_cons, ih, storeElement_length]

theorem setMatrixAt_frame (m : InstancedMesh) (index : Option Int) (matrix : Fin 16 → Int) :
    (setMatrixAt m index matrix).count = m.count ∧
    (setMatrixAt m index matrix).instanceMatrix.length = m.instanceMatrix.length := by
  cases index with
  | none => exact ⟨rfl, rfl⟩
  | some i => exact ⟨rfl, toArray_length _ _ _⟩

theorem call_name (w : World) (c : Call) : (call w c).state.sys.name = w.sys.name := by
  cases c with
  | register object =>
    simp only [call, register]
    split
    · rfl
    · split <;> rfl
  | unregister object =>
    simp only [call, unregister]
    split
    · split <;> rfl
    · rfl
  | setObjectMatrix object =>
    simp only [call, setObjectMatrix]
    split <;> rfl
  | update visibleChunks => rfl

/-- With blocks of at least 16 elements per entity, a successful run of the chunk loop
keeps every count within the storage. -/
theorem updateChunks_fits {name : String} (chunks : List Chunk) :
    ∀ (viewsLOD fin : List InstancedMesh), fullBlocks name chunks →
      updateChunks name chunks viewsLOD = (fin, none) →
      ∀ (l : Nat) (m : InstancedMesh), viewsLOD[l]? = some m → 0 ≤ m.count →
        16 * m.count ≤ m.instanceMatrix.length →
        ∃ m', fin[l]? = some m' ∧ 16 * m'.count ≤ m'.instanceMatrix.length := by
  induction chunks with
  | nil =>
    intro viewsLOD fin _ h l m hm _ hfit
    simp [updateChunks] at h
    subst h
    exact ⟨m, hm, hfit⟩
  | cons c rest ih =>
    intro viewsLOD fin hfull h l m hm hpos hfit
    have hfull' : fullBlocks name rest := fun c' hc' => hfull c' (List.mem_cons_of_mem _ hc')
    rcases updateChunks_cons_ok h with ⟨_, hr⟩ | ⟨g, n, v, array, hg, _, hv, ha, hr⟩
    · exact ih viewsLOD fin hfull' hr l m hm hpos hfit
    · by_cases hnl : n = l
      · subst hnl
        have hlt : n < viewsLOD.length := by
          rcases List.getElem?_eq_some.mp hv with ⟨hlt, _⟩; exact hlt
        have hm' : m = v := by rw [hv] at hm; exact (Option.some.inj hm).symm
        subst hm'
        have hsz : 16 * g.entities.length ≤ g.entityMatrices.length :=
          hfull c (List.mem_cons_self _ _) g hg
        obtain ⟨_, hset, _⟩ := typedArraySet_eq_some ha
        have hlen := typedArraySet_length ha
        exact ih _ fin hfull' hr n _ (List.getElem?_set_self hlt)
          (by show 0 ≤ m.count + (g.entities.length : Int); omega)
          (by show 16 * (m.count + (g.entities.length : Int)) ≤ (array.length : Int); omega)
      · exact ih _ fin hfull' hr l m (by rw [List.getElem?_set_ne hnl]; exact hm) hpos hfit

/-- After a successful `update` on blocks of at least 16 elements per entity no count
exceeds the capacity. -/
theorem update_bulkInv {count : Int} {w : World} {visibleChunks : List Chunk}
    (hinv : ∀ (l : Nat) (m : InstancedMesh), w.sys.viewsLOD[l]? = some m →
      0 ≤ count ∧ m.instanceMatrix.length = count.toNat * 16)
    (hfull : fullBlocks w.sys.name visibleChunks)
    (h : (update w visibleChunks).error = none) :
    BulkInv count (update w visibleChunks).state := by
  intro l m hm
  have hl : l < w.sys.viewsLOD.length := by
    rw [← update_length h]
    rcases List.getElem?_eq_some.mp hm with ⟨hlt, _⟩; exact hlt
  have hreset : (resetViews w.sys.viewsLOD)[l]? =
      some { w.sys.viewsLOD[l] with count := 0, needsUpdate := true } := by
    rw [getElem?_resetViews, List.getElem?_eq_getElem hl]; rfl
  obtain ⟨m1, f1, f2⟩ := updateChunks_fits visibleChunks _ _ hfull (update_ok h) l _ hreset
    (le_refl _) (by show (16 : Int) * 0 ≤ _; omega)
  obtain ⟨m2, g1, g2, _⟩ := (updateChunks_shape visibleChunks _ _ (update_ok h)).2 l _ hreset
  have e1 : m1 = m := by rw [hm] at f1; exact (Option.some.inj f1).symm
  have e2 : m2 = m := by rw [hm] at g1; exact (Option.some.inj g1).symm
  subst e1 e2
  obtain ⟨c0, clen⟩ := hinv l w.sys.viewsLOD[l] (List.getElem?_eq_getElem hl)
  have hlen : m2.instanceMatrix.length = count.toNat * 16 := by rw [g2]; exact clen
  refine ⟨c0, hlen, ?_⟩
  omega

theorem sparseInv_bulkInv {count : Int} {heap : Nat → Object3D} {w : World}
    (h : SparseInv count heap w) : BulkInv count w := by
  intro l m hm
  obtain ⟨c0, cobj, clen, ccount⟩ := h.2.2 l m hm
  refine ⟨c0, clen, ?_⟩
  rw [ccount]
  split <;> omega

/-- The bulk invariant survives `unregister` and `setObjectMatrix`. -/
theorem bulkInv_set {count : Int} {w : World} {n : Nat} {v x : InstancedMesh}
    (h : BulkInv count w) (hv : w.sys.viewsLOD[n]? = some v) (hc : x.count ≤ v.count)
    (hlen : x.instanceMatrix.length = v.instanceMatrix.length) :
    ∀ (l : Nat) (m : InstancedMesh), (w.sys.viewsLOD.set n x)[l]? = some m →
      0 ≤ count ∧ m.instanceMatrix.length = count.toNat * 16 ∧ m.count ≤ count := by
  intro l m hm
  obtain ⟨c0, clen, ccount⟩ := h n v hv
  by_cases hnl : n = l
  · subst hnl
    have hlt : n < w.sys.viewsLOD.length := by
      rcases List.getElem?_eq_some.mp hv with ⟨hlt, _⟩; exact hlt
    rw [List.getElem?_set_self hlt] at hm
    have e := (Option.some.inj hm).symm
    subst e
    exact ⟨c0, by rw [hlen]; exact clen, by omega⟩
  · rw [List.getElem?_set_ne hnl] at hm
    exact h l m hm

theorem bulk_step {count : Int} {w : World} {c : Call} {cs : List Call}
    (hinv : BulkInv count w) (hb : bulkCalls w.sys.name (c :: cs) = true)
    (hret : (call w c).error = none) :
    BulkInv count (call w c).state ∧ bulkCalls (call w c).state.sys.name cs = true := by
  rw [call_name]
  cases c with
  | register object => simp [bulkCalls] at hb
  | unregister object =>
    simp only [bulkCalls] at hb
    refine ⟨?_, hb⟩
    simp only [call]
    by_cases hmem : object ∈ w.sys.objects
    · cases hv : viewAt w.sys.viewsLOD (w.heap object).currentLOD with
      | none => rw [unregister_tracked_undefined hmem hv]; exact hinv
      | some p =>
        obtain ⟨n, v⟩ := p
        rw [unregister_tracked hmem hv]
        exact bulkInv_set hinv (viewAt_eq_some.mp hv).2 (by simp) rfl
    · rw [unregister_untracked hmem]; exact hinv
  | setObjectMatrix object =>
    simp only [bulkCalls] at hb
    refine ⟨?_, hb⟩
    simp only [call, setObjectMatrix]
    cases hv : viewAt w.sys.viewsLOD (w.heap object).currentLOD with
    | none => exact hinv
    | some p =>
      obtain ⟨n, v⟩ := p
      have hf := setMatrixAt_frame v (w.heap object).instanceIndex (w.heap object).matrix
      exact bulkInv_set hinv (viewAt_eq_some.mp hv).2 (le_of_eq hf.1) hf.2
  | update visibleChunks =>
    simp only [bulkCalls, Bool.and_eq_true, decide_eq_true_eq] at hb
    refine ⟨?_, hb.2⟩
    exact update_bulkInv (fun l m hm => ⟨(hinv l m hm).1, (hinv l m hm).2.1⟩) hb.1 hret

theorem bulk_run {count : Int} (calls : List Call) :
    ∀ w : World, BulkInv count w → bulkCalls w.sys.name calls = true → allReturn w calls →
      BulkInv count (runCalls w calls) := by
  induction calls with
  | nil => intro w h _ _; exact h
  | cons c cs ih =>
    intro w h hb hret
    obtain ⟨s1, s2⟩ := bulk_step h hb hret.1
    exact ih _ s1 s2 hret.2

theorem sparse_run {count : Int} {heap : Nat → Object3D} (calls : List Call) :
    ∀ w : World, SparseInv count heap w → disciplined w.sys.name heap calls = true →
      allReturn w calls → BulkInv count (runCalls w calls) := by
  induction calls with
  | nil => intro w h _ _; exact sparseInv_bulkInv h
  | cons c cs ih =>
    intro w h hd hret
    obtain ⟨hmax, hheap, hviews⟩ := h
    obtain ⟨hret1, hret2⟩ := hret
    cases c with
    | register object =>
      simp only [disciplined] at hd
      simp only [runCalls, call] at hret1 hret2 ⊢
      by_cases hfull : w.sys.maxObjectsCount ≤ (w.sys.objects.length : Int)
      · rw [register_full object hfull] at hret1; cases hret1
      · cases hv : w.sys.viewsLOD with
        | nil => rw [register_room_nil object (by omega) hv] at hret1; cases hret1
        | cons view0 rest =>
          have hreg := register_room object (by omega) hv
          apply ih _ _ (by rw [hreg]; exact hd) hret2
          rw [hreg]
          refine ⟨hmax, ?_, ?_⟩
          · intro o
            by_cases ho : o = object
            · subst ho; simp [hheap o]
            · simp only [Function.update_noteq ho]; exact hheap o
          · intro l m hm
            simp only [List.length_append, List.length_singleton]
            cases l with
            | zero =>
              simp only [List.getElem?_cons_zero, Option.some.injEq] at hm
              obtain ⟨c0, _, clen, ccount⟩ := hviews 0 view0 (by rw [hv]; simp)
              subst hm
              simp only [if_true] at ccount ⊢
              refine ⟨c0, by push_cast; omega, clen, by push_cast; omega⟩
            | succ k =>
              simp only [List.getElem?_cons_succ] at hm
              obtain ⟨c0, _, clen, ccount⟩ := hviews (k + 1) m (by rw [hv]; simpa using hm)
              simp only [Nat.add_one_ne_zero, if_false] at ccount ⊢
              exact ⟨c0, by push_cast; omega, clen, ccount⟩
    | unregister object =>
      simp only [disciplined, Bool.and_eq_true, decide_eq_true_eq] at hd
      simp only [runCalls, call] at hret1 hret2 ⊢
      by_cases hmem : object ∈ w.sys.objects
      · have hcur : (w.heap object).currentLOD = some ((0 : Nat) : Int) := by
          rw [hheap object, hd.1]; rfl
        cases hv0 : w.sys.viewsLOD[0]? with
        | none =>
          have hv : viewAt w.sys.viewsLOD (w.heap object).currentLOD = none := by
            rw [hcur]; simp [viewAt, lodIndex, hv0]
          rw [unregister_tracked_undefined hmem hv] at hret1; cases hret1
        | some v =>
          have hv : viewAt w.sys.viewsLOD (w.heap object).currentLOD = some (0, v) :=
            viewAt_eq_some.mpr ⟨hcur, hv0⟩
          have hun := unregister_tracked hmem hv
          apply ih _ _ (by rw [hun]; exact hd.2) hret2
          rw [hun]
          have hidx : w.sys.objects.indexOf object < w.sys.objects.length :=
            List.indexOf_lt_length.mpr hmem
          have hlen : ((w.sys.objects.eraseIdx (w.sys.objects.indexOf object)).length : Int)
              = (w.sys.objects.length : Int) - 1 := by
            rw [List.length_eraseIdx, if_pos hidx]; omega
          have hlt : 0 < w.sys.viewsLOD.length := by
            rcases List.getElem?_eq_some.mp hv0 with ⟨hlt, _⟩; exact hlt
          refine ⟨hmax, hheap, ?_⟩
          intro l m hm
          simp only at hm ⊢
          rw [hlen]
          by_cases hl : 0 = l
          · subst hl
            rw [List.getElem?_set_self hlt] at hm
            obtain ⟨c0, cobj, clen, ccount⟩ := hviews 0 v hv0
            have e := (Option.some.inj hm).symm
            subst e
            simp only [if_true] at ccount ⊢
            exact ⟨c0, by omega, clen, by omega⟩
          · rw [List.getElem?_set_ne hl] at hm
            obtain ⟨c0, cobj, clen, ccount⟩ := hviews l m hm
            have hl' : l ≠ 0 := fun e => hl e.symm
            simp only [hl', if_false] at ccount ⊢
            exact ⟨c0, by omega, clen, ccount⟩
      · rw [unregister_untracked hmem] at hret2 ⊢
        exact ih _ ⟨hmax, hheap, hviews⟩ hd.2 hret2
    | setObjectMatrix object =>
      simp only [disciplined] at hd
      simp only [runCalls, call] at hret1 hret2 ⊢
      unfold setObjectMatrix at hret1 hret2 ⊢
      cases hv : viewAt w.sys.viewsLOD (w.heap object).currentLOD with
      | none => simp only [hv] at hret1; cases hret1
      | some p =>
        obtain ⟨n, v⟩ := p
        simp only [hv] at hret2 ⊢
        apply ih _ _ (by exact hd) hret2
        refine ⟨hmax, hheap, ?_⟩
        intro l m hm
        simp only at hm ⊢
        have hvn := (viewAt_eq_some.mp hv).2
        have hf := setMatrixAt_frame v (w.heap object).instanceIndex (w.heap object).matrix
        by_cases hnl : n = l
        · subst hnl
          have hlt : n < w.sys.viewsLOD.length := by
            rcases List.getElem?_eq_some.mp hvn with ⟨hlt, _⟩; exact hlt
          rw [List.getElem?_set_self hlt] at hm
          obtain ⟨c0, cobj, clen, ccount⟩ := hviews n v hvn
          have e := (Option.some.inj hm).symm
          subst e
          exact ⟨c0, cobj, by rw [← clen]; exact hf.2, by rw [← ccount]; exact hf.1⟩
        · rw [List.getElem?_set_ne hnl] at hm
          exact hviews l m hm
    | update visibleChunks =>
      simp only [disciplined, Bool.and_eq_true, decide_eq_true_eq] at hd
      simp only [runCalls, call] at hret1 hret2 ⊢
      exact bulk_run cs _
        (update_bulkInv (fun l m hm => ⟨(hviews l m hm).1, (hviews l m hm).2.2.1⟩) hd.1 hret1)
        hd.2 hret2

/-- C5, the claim as stated fails on the one-object view (two buffers of capacity 1), with
every call returning without error: (1) `update` with one visible entity fills buffer 0 and
a following `register` pushes its count to 2; (2) `register`, `unregister`, `register` of
an object whose `currentLOD` is 1 also leaves buffer 0 at count 2; (3) a single `update`
with a group of two entities whose transform block is empty sets the count to 2. -/
theorem activeCount_exceeds_capacity :
    construct [exampleModel, exampleModel] 1 "trees" = .ok tinySys ∧
    capacityAt tinyWorld 0 = some 1 ∧
    allReturn tinyWorld [.update [chunkOne], .register 1] ∧
    countAt (runCalls tinyWorld [.update [chunkOne], .register 1]) 0 = some 2 ∧
    capacityAt (runCalls tinyWorld [.update [chunkOne], .register 1]) 0 = some 1 ∧
    allReturn tinyWorld [.register 2, .unregister 2, .register 2] ∧
    countAt (runCalls tinyWorld [.register 2, .unregister 2, .register 2]) 0 = some 2 ∧
    capacityAt (runCalls tinyWorld [.register 2, .unregister 2, .register 2]) 0 = some 1 ∧
    allReturn tinyWorld [.update [chunkShort]] ∧
    countAt (runCalls tinyWorld [.update [chunkShort]]) 0 = some 2 ∧
    capacityAt (runCalls tinyWorld [.update [chunkShort]]) 0 = some 1 :=
  ⟨rfl, rfl, ⟨rfl, rfl, trivial⟩, rfl, rfl, ⟨rfl, rfl, rfl, trivial⟩, rfl, rfl,
    ⟨rfl, trivial⟩, rfl, rfl⟩

/-- C5, amended. In every state reached from a freshly constructed view (capacity =
the constructor's `count`) by calls that all returned without error and that keep the two
update paths apart (up to the first `update` only objects with `currentLOD = 0` are
unregistered, every `update` gets blocks of at least 16 elements per entity, and no
`register` follows an `update`), every buffer has the capacity `count` and an active
count of at most that capacity. -/
theorem activeCount_le_capacity (meshModels : List MeshModel) (count : Int) (name : String)
    (sys : LODInstancedViewSystem) (heap : Nat → Object3D) (calls : List Call)
    (hnew : construct meshModels count name = .ok sys)
    (hd : disciplined name heap calls = true)
    (hret : allReturn { sys := sys, heap := heap } calls) :
    ∀ m ∈ (runCalls { sys := sys, heap := heap } calls).sys.viewsLOD,
      (m.capacity : Int) = count ∧ m.count ≤ (m.capacity : Int) := by
  obtain ⟨h1, h2, h3, _, h5⟩ := construct_ok hnew
  have hinit : SparseInv count heap { sys := sys, heap := heap } := by
    refine ⟨h1, fun _ => rfl, ?_⟩
    intro l m hm
    obtain ⟨c0, ccount, clen⟩ := h5 m (List.getElem?_mem hm)
    simp only [h3, List.length_nil]
    refine ⟨c0, by simpa using c0, clen, ?_⟩
    rw [ccount]; split <;> rfl
  have hfin := sparse_run calls { sys := sys, heap := heap } hinit (by rw [h2]; exact hd) hret
  intro m hm
  obtain ⟨l, hl⟩ := List.mem_iff_getElem?.mp hm
  obtain ⟨c0, clen, ccount⟩ := hfin l m hl
  have hcap : (m.capacity : Int) = count := by
    unfold InstancedMesh.capacity
    rw [clen]
    omega
  exact ⟨hcap, by rw [hcap]; exact ccount⟩

/-- An instance of the amended C5 on the example view: two registrations, an
unregistration, a transform push, then a repack followed by an unregistration. -/
theorem activeCount_le_capacity_witness :
    construct [exampleModel, exampleModel] 10 "trees" = .ok exampleSys ∧
    disciplined "trees" exampleHeap
      [.register 1, .register 2, .unregister 1, .setObjectMatrix 2,
        .update [chunkA, chunkB, chunkC], .unregister 2] = true ∧
    ∀ m ∈ (runCalls { sys := exampleSys, heap := exampleHeap }
        [.register 1, .register 2, .unregister 1, .setObjectMatrix 2,
          .update [chunkA, chunkB, chunkC], .unregister 2]).sys.viewsLOD,
      (m.capacity : Int) = 10 ∧ m.count ≤ (m.capacity : Int) :=
  ⟨rfl, by decide,
    activeCount_le_capacity [exampleModel, exampleModel] 10 "trees" exampleSys exampleHeap
      [.register 1, .register 2, .unregister 1, .setObjectMatrix 2,
        .update [chunkA, chunkB, chunkC], .unregister 2]
      rfl (by decide) ⟨rfl, rfl, rfl, rfl, rfl, rfl, trivial⟩⟩

/-- C11, the claim fails on the code: on the freshly constructed example view, with every
object at `currentLOD = 0` and every call returning without error, `register(1)`,
`register(2)`, `unregister(1)`, `register(3)` gives object 3 the slot 1, which the still
tracked object 2 holds: the new slot is not greater than the slots assigned earlier, and
two tracked objects share a slot. -/
theorem register_reuses_tracked_slot :
    construct [exampleModel, exampleModel] 10 "trees" = .ok flatWorld.sys ∧
    allReturn flatWorld [.register 1, .register 2, .unregister 1, .register 3] ∧
    (runCalls flatWorld [.register 1, .register 2, .unregister 1, .register 3]).sys.objects
      = [2, 3] ∧
    ((runCalls flatWorld [.register 1, .register 2]).heap 1).instanceIndex = some 0 ∧
    ((runCalls flatWorld [.register 1, .register 2]).heap 2).instanceIndex = some 1 ∧
    ((runCalls flatWorld [.register 1, .register 2, .unregister 1, .register 3]).heap
      2).instanceIndex = some 1 ∧
    ((runCalls flatWorld [.register 1, .register 2, .unregister 1, .register 3]).heap
      3).instanceIndex = some 1 :=
  ⟨rfl, ⟨rfl, rfl, rfl, rfl, trivial⟩, rfl, rfl, rfl, rfl, rfl⟩

/-- C12. For a tracked object whose `currentLOD` is the index `n` of a buffer,
`unregister(object)` returns without error, removes the first occurrence of the object
from the tracked list and keeps the order of the others, lowers the count of buffer `n`
by one, and leaves every other count, every transform array, the number of buffers and
every object's fields (so every `instanceIndex`) as they were. -/
theorem unregister_removes_first (w : World) (object n : Nat) (v : InstancedMesh)
    (hmem : object ∈ w.sys.objects)
    (hcur : (w.heap object).currentLOD = some (n : Int))
    (hv : w.sys.viewsLOD[n]? = some v) :
    (unregister w object).error = none ∧
    (∃ before after, w.sys.objects = before ++ object :: after ∧ object ∉ before ∧
      (unregister w object).state.sys.objects = before ++ after) ∧
    countAt w n = some v.count ∧
    countAt (unregister w object).state n = some (v.count - 1) ∧
    (∀ l, l ≠ n → countAt (unregister w object).state l = countAt w l) ∧
    (∀ l, arrayAt (unregister w object).state l = arrayAt w l) ∧
    (unregister w object).state.sys.viewsLOD.length = w.sys.viewsLOD.length ∧
    (unregister w object).state.heap = w.heap := by
  have hview := viewAt_eq_some.mpr ⟨hcur, hv⟩
  have hlt : n < w.sys.viewsLOD.length := by
    rcases List.getElem?_eq_some.mp hv with ⟨hlt, _⟩; exact hlt
  rw [unregister_tracked hmem hview]
  refine ⟨rfl, ?_, by simp [countAt, hv], ?_, ?_, ?_, by simp, rfl⟩
  · obtain ⟨l1, l2, h1, h2, h3⟩ := List.exists_erase_eq hmem
    refine ⟨l1, l2, h2, h1, ?_⟩
    show w.sys.objects.eraseIdx (w.sys.objects.indexOf object) = l1 ++ l2
    rw [List.eraseIdx_indexOf_eq_erase, h3]
  · simp [countAt, List.getElem?_set_self hlt]
  · intro l hl
    simp only [countAt]
    rw [List.getElem?_set_ne (fun e => hl e.symm)]
  · intro l
    simp only [arrayAt]
    by_cases hl : n = l
    · subst hl
      rw [List.getElem?_set_self hlt, hv]; rfl
    · rw [List.getElem?_set_ne hl]

/-- An instance of C12: after two registrations on the example view, object 2 (at level 1)
is unregistered. -/
theorem unregister_removes_first_witness :
    (unregister (runCalls exampleWorld [.register 1, .register 2]) 2).error = none ∧
    (∃ before after,
      (runCalls exampleWorld [.register 1, .register 2]).sys.objects
        = before ++ 2 :: after ∧ 2 ∉ before ∧
      (unregister (runCalls exampleWorld [.register 1, .register 2]) 2).state.sys.objects
        = before ++ after) ∧
    countAt (runCalls exampleWorld [.register 1, .register 2]) 1 = some exampleBuffer.count ∧
    countAt (unregister (runCalls exampleWorld [.register 1, .register 2]) 2).state 1
      = some (exampleBuffer.count - 1) ∧
    (∀ l, l ≠ 1 →
      countAt (unregister (runCalls exampleWorld [.register 1, .register 2]) 2).state l
        = countAt (runCalls exampleWorld [.register 1, .register 2]) l) ∧
    (∀ l, arrayAt (unregister (runCalls exampleWorld [.register 1, .register 2]) 2).state l
      = arrayAt (runCalls exampleWorld [.register 1, .register 2]) l) ∧
    (unregister (runCalls exampleWorld [.register 1, .register 2]) 2).state.sys.viewsLOD.length
      = (runCalls exampleWorld [.register 1, .register 2]).sys.viewsLOD.length ∧
    (unregister (runCalls exampleWorld [.register 1, .register 2]) 2).state.heap
      = (runCalls exampleWorld [.register 1, .register 2]).heap :=
  unregister_removes_first (runCalls exampleWorld [.register 1, .register 2]) 2 1
    exampleBuffer (by decide) rfl rfl

/-- C13. For an object that is not in the tracked list, `unregister(object)` returns
without error and leaves the whole state (tracked list, buffers with their counts and
transform arrays, object fields) as it was, whatever the object's `currentLOD`. -/
theorem unregister_untracked_noop (w : World) (object : Nat)
    (h : object ∉ w.sys.objects) :
    (unregister w object).error = none ∧ (unregister w object).state = w := by
  rw [unregister_untracked h]
  exact ⟨rfl, rfl⟩

/-- An instance of C13: object 0 of the example has no `currentLOD` and is not tracked. -/
theorem unregister_untracked_noop_witness :
    (exampleWorld.heap 0).currentLOD = none ∧
    (unregister exampleWorld 0).error = none ∧ (unregister exampleWorld 0).state = exampleWorld :=
  ⟨rfl, unregister_untracked_noop exampleWorld 0 (by decide)⟩

theorem viewAt_eq_none_iff (w : World) (lod : Option Int) :
    viewAt w.sys.viewsLOD lod = none ↔ ¬ validLOD w lod := by
  constructor
  · intro h ⟨n, hn, hl⟩
    have := viewAt_eq_some.mpr ⟨hl, List.getElem?_eq_getElem hn⟩
    rw [h] at this
    cases this
  · intro h
    cases hv : viewAt w.sys.viewsLOD lod with
    | none => rfl
    | some p =>
      obtain ⟨n, v⟩ := p
      obtain ⟨h1, h2⟩ := viewAt_eq_some.mp hv
      have hlt : n < w.sys.viewsLOD.length := by
        rcases List.getElem?_eq_some.mp h2 with ⟨hlt, _⟩; exact hlt
      exact absurd ⟨n, hlt, h1⟩ h

/-- C15. For a buffer index `lod`, `setDepthPrepassMaterial(m, lod)` followed by
`getDepthPrepassMaterial(lod)` returns `m`, and `getDepthPrepassMaterial(j)` for every
other buffer index `j` returns what it returned before the store. -/
theorem depthPrepassMaterial_set_get (w : World) (m : Option Material) (lod : Nat)
    (hlod : lod < w.sys.viewsLOD.length) :
    (setDepthPrepassMaterial w m (some (lod : Int))).error = none ∧
    getDepthPrepassMaterial (setDepthPrepassMaterial w m (some (lod : Int))).state
      (some (lod : Int)) = .ok m ∧
    ∀ j : Nat, j < w.sys.viewsLOD.length → j ≠ lod →
      getDepthPrepassMaterial (setDepthPrepassMaterial w m (some (lod : Int))).state
        (some (j : Int)) = getDepthPrepassMaterial w (some (j : Int)) := by
  have hview : viewAt w.sys.viewsLOD (some (lod : Int)) = some (lod, w.sys.viewsLOD[lod]) :=
    viewAt_eq_some.mpr ⟨rfl, List.getElem?_eq_getElem hlod⟩
  unfold setDepthPrepassMaterial
  simp only [hview]
  refine ⟨trivial, ?_, ?_⟩
  · unfold getDepthPrepassMaterial
    have : viewAt (w.sys.viewsLOD.set lod
        { w.sys.viewsLOD[lod] with depthPrepassMaterial := m }) (some (lod : Int)) =
        some (lod, { w.sys.viewsLOD[lod] with depthPrepassMaterial := m }) :=
      viewAt_eq_some.mpr ⟨rfl, List.getElem?_set_self hlod⟩
    simp only [this]
  · intro j hj hne
    unfold getDepthPrepassMaterial
    have h1 : viewAt (w.sys.viewsLOD.set lod
        { w.sys.viewsLOD[lod] with depthPrepassMaterial := m }) (some (j : Int)) =
        some (j, w.sys.viewsLOD[j]) :=
      viewAt_eq_some.mpr ⟨rfl, by
        rw [List.getElem?_set_ne (fun e => hne e.symm)]; exact List.getElem?_eq_getElem hj⟩
    have h2 : viewAt w.sys.viewsLOD (some (j : Int)) = some (j, w.sys.viewsLOD[j]) :=
      viewAt_eq_some.mpr ⟨rfl, List.getElem?_eq_getElem hj⟩
    simp only [h1, h2]

/-- The example of C15: on the example view, a material stored at level 1 is read back
from level 1, and level 0 still reads as before. -/
theorem depthPrepassMaterial_set_get_witness :
    (setDepthPrepassMaterial exampleWorld (some plainShaderMaterial) (some 1)).error = none ∧
    getDepthPrepassMaterial
      (setDepthPrepassMaterial exampleWorld (some plainShaderMaterial) (some 1)).state
      (some 1) = .ok (some plainShaderMaterial) ∧
    ∀ j : Nat, j < exampleWorld.sys.viewsLOD.length → j ≠ 1 →
      getDepthPrepassMaterial
        (setDepthPrepassMaterial exampleWorld (some plainShaderMaterial) (some 1)).state
        (some (j : Int)) = getDepthPrepassMaterial exampleWorld (some (j : Int)) :=
  depthPrepassMaterial_set_get exampleWorld (some plainShaderMaterial) 1 (by decide)

/-- C16, the claim as stated fails: the accessors have no range check and raise no
IndexOutOfRange error.  At level 99 on the example view of two levels both throw the
TypeError of a property access on `undefined`, not a range error; it is the very error
that `unregister` raises for a registered object without `currentLOD`. -/
theorem depthPrepassMaterial_error_is_typeError :
    exampleWorld.sys.viewsLOD.length = 2 ∧
    (setDepthPrepassMaterial exampleWorld (some plainShaderMaterial) (some 99)).error
      = some .typeError ∧
    (setDepthPrepassMaterial exampleWorld (some plainShaderMaterial) (some 99)).error
      ≠ some .rangeError ∧
    getDepthPrepassMaterial exampleWorld (some 99) = .error .typeError ∧
    getDepthPrepassMaterial exampleWorld (some 99) ≠ .error .rangeError ∧
    (unregister (register exampleWorld 0).state 0).error
      = (setDepthPrepassMaterial exampleWorld (some plainShaderMaterial) (some 99)).error :=
  ⟨rfl, rfl, by decide, rfl, (by intro h; cases h), rfl⟩

/-- C16, amended. `setDepthPrepassMaterial(material, lod)` and
`getDepthPrepassMaterial(lod)` each throw exactly when `lod` is not an index in
`[0, viewsLOD.length)`, and what they throw is the TypeError of the access to the missing
buffer; a store that throws leaves the whole state, so every buffer's depth-prepass
material, as it was. -/
theorem depthPrepassMaterial_fails_iff (w : World) (material : Option Material)
    (lod : Option Int) :
    ((setDepthPrepassMaterial w material lod).error = some .typeError ↔ ¬ validLOD w lod) ∧
    ((setDepthPrepassMaterial w material lod).error = none ↔ validLOD w lod) ∧
    (getDepthPrepassMaterial w lod = .error .typeError ↔ ¬ validLOD w lod) ∧
    ((∃ m, getDepthPrepassMaterial w lod = .ok m) ↔ validLOD w lod) ∧
    ((setDepthPrepassMaterial w material lod).error ≠ none →
      (setDepthPrepassMaterial w material lod).state = w) := by
  by_cases hvalid : validLOD w lod
  · cases hv : viewAt w.sys.viewsLOD lod with
    | none => exact absurd hvalid ((viewAt_eq_none_iff w lod).mp hv)
    | some p =>
      obtain ⟨n, v⟩ := p
      unfold setDepthPrepassMaterial getDepthPrepassMaterial
      simp [hv, hvalid]
  · have hv := (viewAt_eq_none_iff w lod).mpr hvalid
    unfold setDepthPrepassMaterial getDepthPrepassMaterial
    simp [hv, hvalid]

/-- An instance of the amended C16: level 99 on the example view of two levels. -/
theorem depthPrepassMaterial_fails_iff_witness :
    ¬ validLOD exampleWorld (some 99) ∧
    (setDepthPrepassMaterial exampleWorld (some plainShaderMaterial) (some 99)).error
      = some .typeError ∧
    getDepthPrepassMaterial exampleWorld (some 99) = .error .typeError ∧
    (setDepthPrepassMaterial exampleWorld (some plainShaderMaterial) (some 99)).state
      = exampleWorld :=
  ⟨by decide,
    (depthPrepassMaterial_fails_iff exampleWorld (some plainShaderMaterial) (some 99)).1.mpr
      (by decide),
    rfl, rfl⟩

/-- C17, the claim fails on the code: the guards of `updateShaders` test the uniforms
table, not its `timeElapsed` entry.  On a view whose main material has a uniforms table
without that entry the call throws a TypeError instead of doing nothing, and likewise for
a custom depth material whose `userData.uniforms` lacks the entry; with the entry present
the call returns and stores the value. -/
theorem updateShaders_throws_without_entry :
    plainShaderMaterial.uniforms = some { timeElapsed := none } ∧
    (updateShaders plainShaderWorld 0 5).error = some .typeError ∧
    plainDepthMaterial.userDataUniforms = some { timeElapsed := none } ∧
    (updateShaders plainDepthWorld 0 5).error = some .typeError ∧
    (updateShaders timedWorld 0 5).error = none ∧
    (updateShaders timedWorld 0 5).state.sys.viewsLOD.map (fun m => m.material.uniforms)
      = [some { timeElapsed := some 5 }] :=
  ⟨rfl, rfl, rfl, rfl, rfl, rfl⟩

theorem storeElement_ofNat (array : List Int) (n : Nat) (value : Int) (h : n < array.length) :
    storeElement array (n : Int) value = array.set n value := by
  unfold storeElement
  rw [if_pos ⟨Int.ofNat_nonneg n, by exact_mod_cast h⟩]
  simp

/-- Reading an element after the stores of `toArray` for the indices `js`, when the
whole block lies inside the array. -/
theorem foldl_store_getElem? (te : Fin 16 → Int) (offset : Nat) (js : List (Fin 16)) :
    ∀ (array : List Int), offset + 16 ≤ array.length → ∀ k : Nat,
      (js.foldl (fun a j => storeElement a ((offset : Int) + (j.val : Int)) (te j)) array)[k]? =
        if ∃ j ∈ js, offset + j.val = k
        then some (if hk : k - offset < 16 then te ⟨k - offset, hk⟩ else 0)
        else array[k]? := by
  induction js with
  | nil => intro array _ k; simp
  | cons j js ih =>
    intro array hlen k
    have hj : offset + j.val < array.length := by have := j.isLt; omega
    have hstore : storeElement array ((offset : Int) + (j.val : Int)) (te j) =
        array.set (offset + j.val) (te j) := by
      have := storeElement_ofNat array (offset + j.val) (te j) hj
      rw [← this]; push_cast; rfl
    rw [List.foldl_cons, hstore, ih _ (by rw [List.length_set]; exact hlen) k]
    by_cases hjk : offset + j.val = k
    · have hex : ∃ j' ∈ j :: js, offset + j'.val = k := ⟨j, List.mem_cons_self _ _, hjk⟩
      rw [if_pos hex]
      by_cases hex' : ∃ j' ∈ js, offset + j'.val = k
      · rw [if_pos hex']
      · rw [if_neg hex', ← hjk, List.getElem?_set_self hj]
        have hlt : offset + j.val - offset < 16 := by have := j.isLt; omega
        rw [dif_pos hlt]
        congr 2
        apply Fin.ext
        simp
    · have hiff : (∃ j' ∈ j :: js, offset + j'.val = k) ↔ ∃ j' ∈ js, offset + j'.val = k := by
        constructor
        · rintro ⟨j', hj', he⟩
          rcases List.mem_cons.mp hj' with rfl | hj'
          · exact absurd he hjk
          · exact ⟨j', hj', he⟩
        · rintro ⟨j', hj', he⟩
          exact ⟨j', List.mem_cons_of_mem _ hj', he⟩
      by_cases hex' : ∃ j' ∈ js, offset + j'.val = k
      · rw [if_pos hex', if_pos (hiff.mpr hex')]
      · rw [if_neg hex', if_neg (fun h => hex' (hiff.mp h)), List.getElem?_set_ne hjk]

/-- The array after `toArray` at an offset inside the array: the sixteen elements of the
block are the matrix, the others are as before. -/
theorem toArray_getElem? (te : Fin 16 → Int) (array : List Int) (offset : Nat)
    (h : offset + 16 ≤ array.length) :
    (∀ j : Fin 16, (toArray te array (offset : Int))[offset + j.val]? = some (te j)) ∧
    ∀ k : Nat, (k < offset ∨ offset + 16 ≤ k) →
      (toArray te array (offset : Int))[k]? = array[k]? := by
  unfold toArray
  constructor
  · intro j
    rw [foldl_store_getElem? te offset _ array h, if_pos ⟨j, List.mem_finRange j, rfl⟩]
    have hlt : offset + j.val - offset < 16 := by have := j.isLt; omega
    rw [dif_pos hlt]
    congr 2
    apply Fin.ext
    simp
  · intro k hk
    rw [foldl_store_getElem? te offset _ array h, if_neg]
    rintro ⟨j, _, he⟩
    have := j.isLt
    omega

/-- C14, the claim as stated fails for a negative `instanceIndex`, which is below every
capacity.  On the example view (all objects at level 0, every call returning without
error) `register(1)`, `update([])`, `unregister(1)`, `register(2)` registers object 2 with
`instanceIndex = -1`; `setObjectMatrix(2)` then returns without error and stores nothing:
the transform array of buffer 0 is still all zeros, although the object's matrix holds
the value 2. -/
theorem setObjectMatrix_negative_index_counterexample :
    allReturn flatWorld [.register 1, .update [], .unregister 1, .register 2] ∧
    (runCalls flatWorld [.register 1, .update [], .unregister 1, .register 2]).sys.objects
      = [2] ∧
    ((runCalls flatWorld [.register 1, .update [], .unregister 1, .register 2]).heap
      2).instanceIndex = some (-1) ∧
    ((runCalls flatWorld [.register 1, .update [], .unregister 1, .register 2]).heap
      2).currentLOD = some 0 ∧
    ((runCalls flatWorld [.register 1, .update [], .unregister 1, .register 2]).heap
      2).matrix = (fun _ => 2) ∧
    capacityAt (runCalls flatWorld [.register 1, .update [], .unregister 1, .register 2]) 0
      = some 10 ∧
    (setObjectMatrix
      (runCalls flatWorld [.register 1, .update [], .unregister 1, .register 2]) 2).error
      = none ∧
    arrayAt (setObjectMatrix
      (runCalls flatWorld [.register 1, .update [], .unregister 1, .register 2]) 2).state 0
      = some (List.replicate 160 0) :=
  ⟨⟨rfl, rfl, rfl, rfl, trivial⟩, rfl, rfl, rfl, rfl, rfl, rfl, rfl⟩

/-- The state after a `setObjectMatrix` that finds its buffer. -/
theorem setObjectMatrix_eq {w : World} {object n : Nat} {v : InstancedMesh}
    (hview : viewAt w.sys.viewsLOD (w.heap object).currentLOD = some (n, v)) :
    setObjectMatrix w object =
      { state := { w with sys := { w.sys with
          viewsLOD := w.sys.viewsLOD.set n
            { setMatrixAt v (w.heap object).instanceIndex (w.heap object).matrix with
              needsUpdate := true } } }
        error := none } := by
  unfold setObjectMatrix
  simp only [hview]

/-- C14, amended. For an object whose `currentLOD` is the index `n` of a buffer and whose
`instanceIndex` is a slot `i` with `0 ≤ i < capacity`, `setObjectMatrix(object)` returns
without error, overwrites exactly the 16 elements at offset `16 * i` of buffer `n`'s
transform array with the object's matrix, marks that buffer dirty, and leaves every other
element of that array, its length and count, every other buffer, the tracked list and the
objects as they were. -/
theorem setObjectMatrix_writes_slot (w : World) (object n i : Nat) (v : InstancedMesh)
    (hcur : (w.heap object).currentLOD = some (n : Int))
    (hv : w.sys.viewsLOD[n]? = some v)
    (hidx : (w.heap object).instanceIndex = some (i : Int))
    (hcap : i < v.capacity) :
    (setObjectMatrix w object).error = none ∧
    (∃ v', (setObjectMatrix w object).state.sys.viewsLOD[n]? = some v' ∧
      v'.needsUpdate = true ∧ v'.count = v.count ∧
      v'.instanceMatrix.length = v.instanceMatrix.length ∧
      (∀ j : Fin 16, v'.instanceMatrix[16 * i + j.val]? = some ((w.heap object).matrix j)) ∧
      ∀ k : Nat, (k < 16 * i ∨ 16 * i + 16 ≤ k) →
        v'.instanceMatrix[k]? = v.instanceMatrix[k]?) ∧
    (∀ l, l ≠ n → (setObjectMatrix w object).state.sys.viewsLOD[l]? = w.sys.viewsLOD[l]?) ∧
    (setObjectMatrix w object).state.sys.viewsLOD.length = w.sys.viewsLOD.length ∧
    (setObjectMatrix w object).state.sys.objects = w.sys.objects ∧
    (setObjectMatrix w object).state.heap = w.heap := by
  have hview := viewAt_eq_some.mpr ⟨hcur, hv⟩
  have hlt : n < w.sys.viewsLOD.length := by
    rcases List.getElem?_eq_some.mp hv with ⟨hlt, _⟩; exact hlt
  have hfit : i * 16 + 16 ≤ v.instanceMatrix.length := by
    have h16 : i < v.instanceMatrix.length / 16 := hcap
    omega
  have hoff : ((i : Int) * 16) = ((i * 16 : Nat) : Int) := by push_cast; ring
  obtain ⟨t1, t2⟩ := toArray_getElem? (w.heap object).matrix v.instanceMatrix (i * 16) hfit
  rw [setObjectMatrix_eq hview]
  have hwritten : setMatrixAt v (w.heap object).instanceIndex (w.heap object).matrix =
      { v with instanceMatrix :=
          toArray (w.heap object).matrix v.instanceMatrix ((i * 16 : Nat) : Int) } := by
    rw [hidx, ← hoff]; rfl
  rw [hwritten]
  generalize hA : toArray (w.heap object).matrix v.instanceMatrix ((i * 16 : Nat) : Int) = A
    at t1 t2
  have tlen : A.length = v.instanceMatrix.length := by rw [← hA]; exact toArray_length _ _ _
  simp only
  refine ⟨trivial, ?_, ?_, List.length_set _ _ _, trivial, trivial⟩
  · refine ⟨_, List.getElem?_set_self hlt, rfl, rfl, tlen, ?_, ?_⟩
    · intro j
      rw [Nat.mul_comm 16 i]
      exact t1 j
    · intro k hk
      rw [Nat.mul_comm 16 i] at hk
      exact t2 k hk
  · intro l hl
    exact List.getElem?_set_ne (fun e => hl e.symm)

/-- An instance of the amended C14: object 2 of the example (level 1) registered in slot
1 writes its matrix into the second slot of buffer 1. -/
theorem setObjectMatrix_writes_slot_witness :
    (setObjectMatrix (runCalls exampleWorld [.register 1, .register 2]) 2).error = none ∧
    (∃ v', (setObjectMatrix (runCalls exampleWorld [.register 1, .register 2])
        2).state.sys.viewsLOD[1]? = some v' ∧
      v'.needsUpdate = true ∧ v'.count = exampleBuffer.count ∧
      v'.instanceMatrix.length = exampleBuffer.instanceMatrix.length ∧
      (∀ j : Fin 16, v'.instanceMatrix[16 * 1 + j.val]? =
        some (((runCalls exampleWorld [.register 1, .register 2]).heap 2).matrix j)) ∧
      ∀ k : Nat, (k < 16 * 1 ∨ 16 * 1 + 16 ≤ k) →
        v'.instanceMatrix[k]? = exampleBuffer.instanceMatrix[k]?) ∧
    (∀ l, l ≠ 1 →
      (setObjectMatrix (runCalls exampleWorld [.register 1, .register 2])
        2).state.sys.viewsLOD[l]? =
      (runCalls exampleWorld [.register 1, .register 2]).sys.viewsLOD[l]?) ∧
    (setObjectMatrix (runCalls exampleWorld [.register 1, .register 2])
      2).state.sys.viewsLOD.length =
      (runCalls exampleWorld [.register 1, .register 2]).sys.viewsLOD.length ∧
    (setObjectMatrix (runCalls exampleWorld [.register 1, .register 2]) 2).state.sys.objects
      = (runCalls exampleWorld [.register 1, .register 2]).sys.objects ∧
    (setObjectMatrix (runCalls exampleWorld [.register 1, .register 2]) 2).state.heap
      = (runCalls exampleWorld [.register 1, .register 2]).heap :=
  setObjectMatrix_writes_slot (runCalls exampleWorld [.register 1, .register 2]) 2 1 1
    exampleBuffer rfl rfl rfl (by decide)

theorem entityTotal_nonneg (name : String) (l : Nat) (chunks : List Chunk) :
    0 ≤ entityTotal name l chunks := by
  unfold entityTotal
  apply List.sum_nonneg
  intro x hx
  obtain ⟨g, _, rfl⟩ := List.mem_map.mp hx
  exact Int.ofNat_nonneg _

theorem entityTotal_cons_skip {name : String} {c : Chunk} (l : Nat) (rest : List Chunk)
    (h : carriesAt name l c = none) :
    entityTotal name l (c :: rest) = entityTotal name l rest := by
  simp [entityTotal, groupsAt, List.filterMap_cons, h]

theorem entityTotal_cons_carry {name : String} {c : Chunk} {g : EntityGroup} (l : Nat)
    (rest : List Chunk) (h : carriesAt name l c = some g) :
    entityTotal name l (c :: rest) = (g.entities.length : Int) + entityTotal name l rest := by
  simp [entityTotal, groupsAt, List.filterMap_cons, h]

/-- The chunk loop returns without error when every carried group declares an existing
level and has an exact block, and every buffer has room for the entities of its level. -/
theorem updateChunks_safe {name : String} (chunks : List Chunk) :
    ∀ (viewsLOD : List InstancedMesh),
      (∀ c ∈ chunks, ∀ g ∈ c.entityGroups.lookup name,
        ∃ n, n < viewsLOD.length ∧ c.currentLOD = some (n : Int)) →
      exactBlocks name chunks →
      (∀ (l : Nat) (m : InstancedMesh), viewsLOD[l]? = some m →
        0 ≤ m.count ∧
        16 * (m.count + entityTotal name l chunks) ≤ (m.instanceMatrix.length : Int)) →
      (updateChunks name chunks viewsLOD).2 = none := by
  induction chunks with
  | nil => intro viewsLOD _ _ _; rfl
  | cons c rest ih =>
    intro viewsLOD hlod hex hroom
    have hlod' : ∀ c' ∈ rest, ∀ g ∈ c'.entityGroups.lookup name,
        ∃ n, n < viewsLOD.length ∧ c'.currentLOD = some (n : Int) :=
      fun c' hc' => hlod c' (List.mem_cons_of_mem _ hc')
    have hex' : exactBlocks name rest := fun c' hc' => hex c' (List.mem_cons_of_mem _ hc')
    rw [updateChunks]
    cases hg : c.entityGroups.lookup name with
    | none =>
      simp only
      apply ih viewsLOD hlod' hex'
      intro l m hm
      have := hroom l m hm
      rw [entityTotal_cons_skip l rest (carriesAt_of_lookup_none l hg)] at this
      exact this
    | some g =>
      obtain ⟨n, hn, hcur⟩ := hlod c (List.mem_cons_self _ _) g hg
      have hv : viewsLOD[n]? = some viewsLOD[n] := List.getElem?_eq_getElem hn
      have hsz : g.entityMatrices.length = 16 * g.entities.length :=
        hex c (List.mem_cons_self _ _) g hg
      obtain ⟨hpos, hfit⟩ := hroom n viewsLOD[n] hv
      rw [entityTotal_cons_carry n rest (carriesAt_same hg hcur)] at hfit
      have hrest := entityTotal_nonneg name n rest
      have hset : typedArraySet viewsLOD[n].instanceMatrix g.entityMatrices
          (viewsLOD[n].count * 16) =
          some (viewsLOD[n].instanceMatrix.take (viewsLOD[n].count * 16).toNat ++
            g.entityMatrices ++ viewsLOD[n].instanceMatrix.drop
              ((viewsLOD[n].count * 16).toNat + g.entityMatrices.length)) := by
        unfold typedArraySet
        rw [if_neg]
        simp only [not_or, not_lt]
        exact ⟨by omega, by omega⟩
      simp only [viewAt_eq_some.mpr ⟨hcur, hv⟩, hset]
      apply ih _ (by rw [List.length_set]; exact hlod') hex'
      intro l m hm
      by_cases hnl : n = l
      · subst hnl
        rw [List.getElem?_set_self hn] at hm
        have e := (Option.some.inj hm).symm
        subst e
        refine ⟨by show 0 ≤ viewsLOD[n].count + (g.entities.length : Int); omega, ?_⟩
        have hlen := typedArraySet_length hset
        show 16 * (viewsLOD[n].count + (g.entities.length : Int) + entityTotal name n rest)
          ≤ ((viewsLOD[n].instanceMatrix.take (viewsLOD[n].count * 16).toNat ++
            g.entityMatrices ++ viewsLOD[n].instanceMatrix.drop
              ((viewsLOD[n].count * 16).toNat + g.entityMatrices.length)).length : Int)
        rw [hlen]
        omega
      · rw [List.getElem?_set_ne hnl] at hm
        have := hroom l m hm
        rw [entityTotal_cons_skip l rest (carriesAt_other hcur hnl)] at this
        exact this

/-- With exact blocks, a successful run of the chunk loop leaves every element above the
final count as it was. -/
theorem updateChunks_tail {name : String} (chunks : List Chunk) :
    ∀ (viewsLOD fin : List InstancedMesh), exactBlocks name chunks →
      updateChunks name chunks viewsLOD = (fin, none) →
      ∀ (l : Nat) (m : InstancedMesh), viewsLOD[l]? = some m → 0 ≤ m.count →
        ∃ m', fin[l]? = some m' ∧ m.count ≤ m'.count ∧
          ∀ i : Nat, 16 * m'.count ≤ (i : Int) → m'.instanceMatrix[i]? = m.instanceMatrix[i]? := by
  induction chunks with
  | nil =>
    intro viewsLOD fin _ h l m hm _
    simp [updateChunks] at h
    subst h
    exact ⟨m, hm, le_refl _, fun _ _ => rfl⟩
  | cons c rest ih =>
    intro viewsLOD fin hex h l m hm hpos
    have hex' : exactBlocks name rest := fun c' hc' => hex c' (List.mem_cons_of_mem _ hc')
    rcases updateChunks_cons_ok h with ⟨_, hr⟩ | ⟨g, n, v, array, hg, _, hv, ha, hr⟩
    · exact ih viewsLOD fin hex' hr l m hm hpos
    · by_cases hnl : n = l
      · subst hnl
        have hlt : n < viewsLOD.length := by
          rcases List.getElem?_eq_some.mp hv with ⟨hlt, _⟩; exact hlt
        have hm' : m = v := by rw [hv] at hm; exact (Option.some.inj hm).symm
        subst hm'
        have hsz : g.entityMatrices.length = 16 * g.entities.length :=
          hex c (List.mem_cons_self _ _) g hg
        obtain ⟨hoff, hfit, harr⟩ := typedArraySet_eq_some ha
        obtain ⟨m', h1, h2, h3⟩ := ih _ fin hex' hr n _ (List.getElem?_set_self hlt)
          (by show 0 ≤ m.count + (g.entities.length : Int); omega)
        have h2' : m.count + (g.entities.length : Int) ≤ m'.count := h2
        refine ⟨m', h1, by omega, ?_⟩
        intro i hi
        rw [h3 i hi]
        show array[i]? = m.instanceMatrix[i]?
        rw [harr, getElem?_overwrite _ _ _ _ hfit, if_neg]
        omega
      · exact ih _ fin hex' hr l m (by rw [List.getElem?_set_ne hnl]; exact hm) hpos

/-- A chunk without the view's group is skipped, wherever it stands in the list and
whatever its `currentLOD`. -/
theorem updateChunks_skip {name : String} {c : Chunk} (post : List Chunk)
    (hc : c.entityGroups.lookup name = none) (pre : List Chunk) :
    ∀ viewsLOD : List InstancedMesh,
      updateChunks name (pre ++ c :: post) viewsLOD = updateChunks name (pre ++ post) viewsLOD := by
  induction pre with
  | nil =>
    intro viewsLOD
    simp only [List.nil_append]
    rw [updateChunks]
    simp only [hc]
  | cons p pre ih =>
    intro viewsLOD
    simp only [List.cons_append]
    rw [updateChunks, updateChunks]
    cases p.entityGroups.lookup name with
    | none => exact ih viewsLOD
    | some g =>
      simp only
      cases viewAt viewsLOD p.currentLOD with
      | none => rfl
      | some q =>
        obtain ⟨n, v⟩ := q
        simp only
        cases typedArraySet v.instanceMatrix g.entityMatrices (v.count * 16) with
        | none => rfl
        | some array => exact ih _

/-- C18. `update` is safe under its precondition: when every chunk that carries the
view's group declares a level in `[0, viewsLOD.length)` and has a block of exactly 16
elements per entity, and for every level the entity total of the carried groups is at
most the buffer's capacity, `update` returns without error.  Moreover a chunk that does
not carry the view's group is skipped, wherever it stands and even with a `currentLOD`
out of range: the call behaves as if the chunk were not in the list. -/
theorem update_safe (w : World) (visibleChunks : List Chunk)
    (hlod : ∀ c ∈ visibleChunks, ∀ _g ∈ c.entityGroups.lookup w.sys.name,
      validLOD w c.currentLOD)
    (hex : exactBlocks w.sys.name visibleChunks)
    (hroom : ∀ (l : Nat) (h : l < w.sys.viewsLOD.length),
      entityTotal w.sys.name l visibleChunks ≤ ((w.sys.viewsLOD.get ⟨l, h⟩).capacity : Int)) :
    (update w visibleChunks).error = none ∧
    ∀ (c : Chunk) (pre post : List Chunk), c.entityGroups.lookup w.sys.name = none →
      (update w (pre ++ c :: post)).error = (update w (pre ++ post)).error ∧
      (update w (pre ++ c :: post)).state = (update w (pre ++ post)).state := by
  constructor
  · show (updateChunks w.sys.name visibleChunks (resetViews w.sys.viewsLOD)).2 = none
    apply updateChunks_safe
    · intro c hc g hg
      obtain ⟨n, hn, hcur⟩ := hlod c hc g hg
      exact ⟨n, by rw [length_resetViews]; exact hn, hcur⟩
    · exact hex
    · intro l m hm
      rw [getElem?_resetViews] at hm
      cases hv : w.sys.viewsLOD[l]? with
      | none => rw [hv] at hm; cases hm
      | some v =>
        rw [hv] at hm
        have e := (Option.some.inj hm).symm
        subst e
        have hl : l < w.sys.viewsLOD.length := by
          rcases List.getElem?_eq_some.mp hv with ⟨hlt, _⟩; exact hlt
        have hcap := hroom l hl
        have hget : w.sys.viewsLOD.get ⟨l, hl⟩ = v := by
          rcases List.getElem?_eq_some.mp hv with ⟨_, he⟩; exact he
        rw [hget] at hcap
        have hc16 : v.capacity = v.instanceMatrix.length / 16 := rfl
        refine ⟨le_refl _, ?_⟩
        show 16 * ((0 : Int) + entityTotal w.sys.name l visibleChunks)
          ≤ (v.instanceMatrix.length : Int)
        omega
  · intro c pre post hc
    unfold update
    simp only [updateChunks_skip post hc pre]
    exact ⟨trivial, trivial⟩

/-- The example of C18: A, B and C on the example view; C declares level 7 and carries
no group of the view. -/
theorem update_safe_witness :
    chunkC.currentLOD = some 7 ∧ ¬ validLOD exampleWorld chunkC.currentLOD ∧
    ((update exampleWorld [chunkA, chunkB, chunkC]).error = none ∧
      ∀ (c : Chunk) (pre post : List Chunk), c.entityGroups.lookup exampleWorld.sys.name = none →
        (update exampleWorld (pre ++ c :: post)).error
          = (update exampleWorld (pre ++ post)).error ∧
        (update exampleWorld (pre ++ c :: post)).state
          = (update exampleWorld (pre ++ post)).state) :=
  ⟨rfl, by decide,
    update_safe exampleWorld [chunkA, chunkB, chunkC] (by decide) (by decide) (by decide)⟩

/-- C19. An `update` that returns without error on exact blocks leaves the tracked list,
`maxObjectsCount`, the name and every object's fields (so `instanceIndex` and
`currentLOD`) as they were, and in every buffer each element of the transform array at an
index of at least `16 * count`, for the new count, keeps its value. -/
theorem update_frame (w : World) (visibleChunks : List Chunk)
    (hex : exactBlocks w.sys.name visibleChunks)
    (h : (update w visibleChunks).error = none) :
    (update w visibleChunks).state.sys.objects = w.sys.objects ∧
    (update w visibleChunks).state.sys.maxObjectsCount = w.sys.maxObjectsCount ∧
    (update w visibleChunks).state.sys.name = w.sys.name ∧
    (update w visibleChunks).state.heap = w.heap ∧
    ∀ (l : Nat) (m : InstancedMesh), w.sys.viewsLOD[l]? = some m →
      ∃ m', (update w visibleChunks).state.sys.viewsLOD[l]? = some m' ∧
        ∀ i : Nat, 16 * m'.count ≤ (i : Int) →
          m'.instanceMatrix[i]? = m.instanceMatrix[i]? := by
  refine ⟨rfl, rfl, rfl, rfl, ?_⟩
  intro l m hm
  have hreset : (resetViews w.sys.viewsLOD)[l]? =
      some { m with count := 0, needsUpdate := true } := by
    rw [getElem?_resetViews, hm]; rfl
  obtain ⟨m', h1, _, h3⟩ := updateChunks_tail visibleChunks _ _ hex (update_ok h) l _ hreset
    (le_refl _)
  exact ⟨m', h1, h3⟩

/-- An instance of C19 on the example view. -/
theorem update_frame_witness :
    (update exampleWorld [chunkA, chunkB, chunkC]).state.sys.objects
      = exampleWorld.sys.objects ∧
    (update exampleWorld [chunkA, chunkB, chunkC]).state.sys.maxObjectsCount
      = exampleWorld.sys.maxObjectsCount ∧
    (update exampleWorld [chunkA, chunkB, chunkC]).state.sys.name = exampleWorld.sys.name ∧
    (update exampleWorld [chunkA, chunkB, chunkC]).state.heap = exampleWorld.heap ∧
    ∀ (l : Nat) (m : InstancedMesh), exampleWorld.sys.viewsLOD[l]? = some m →
      ∃ m', (update exampleWorld [chunkA, chunkB, chunkC]).state.sys.viewsLOD[l]? = some m' ∧
        ∀ i : Nat, 16 * m'.count ≤ (i : Int) →
          m'.instanceMatrix[i]? = m.instanceMatrix[i]? :=
  update_frame exampleWorld [chunkA, chunkB, chunkC] (by decide) rfl

/-- Every `register`, failing or not, keeps the invariant of the sparse phase and the
number of buffers. -/
theorem sparseInv_register {count : Int} {heap : Nat → Object3D} {w : World}
    (h : SparseInv count heap w) (object : Nat) :
    SparseInv count heap (register w object).state ∧
    (register w object).state.sys.viewsLOD.length = w.sys.viewsLOD.length := by
  obtain ⟨hmax, hheap, hviews⟩ := h
  by_cases hfull : w.sys.maxObjectsCount ≤ (w.sys.objects.length : Int)
  · rw [register_full object hfull]; exact ⟨⟨hmax, hheap, hviews⟩, rfl⟩
  · cases hv : w.sys.viewsLOD with
    | nil =>
      rw [register_room_nil object (by omega) hv]
      refine ⟨⟨hmax, hheap, ?_⟩, by simp [hv]⟩
      intro l m hm
      simp only [hv] at hm
      simp at hm
    | cons view0 rest =>
      rw [register_room object (by omega) hv]
      refine ⟨⟨hmax, ?_, ?_⟩, by simp⟩
      · intro o
        by_cases ho : o = object
        · subst ho; simp [hheap o]
        · simp only [Function.update_noteq ho]; exact hheap o
      · intro l m hm
        simp only [List.length_append, List.length_singleton]
        cases l with
        | zero =>
          simp only [List.getElem?_cons_zero, Option.some.injEq] at hm
          obtain ⟨c0, _, clen, ccount⟩ := hviews 0 view0 (by rw [hv]; simp)
          subst hm
          simp only [if_true] at ccount ⊢
          refine ⟨c0, by push_cast; omega, clen, by push_cast; omega⟩
        | succ k =>
          simp only [List.getElem?_cons_succ] at hm
          obtain ⟨c0, _, clen, ccount⟩ := hviews (k + 1) m (by rw [hv]; simpa using hm)
          simp only [Nat.add_one_ne_zero, if_false] at ccount ⊢
          exact ⟨c0, by push_cast; omega, clen, ccount⟩

/-- Every `unregister` of an object with `currentLOD = 0`, failing or not, keeps the
invariant of the sparse phase and the number of buffers. -/
theorem sparseInv_unregister {count : Int} {heap : Nat → Object3D} {w : World}
    (h : SparseInv count heap w) {object : Nat} (hzero : (heap object).currentLOD = some 0) :
    SparseInv count heap (unregister w object).state ∧
    (unregister w object).state.sys.viewsLOD.length = w.sys.viewsLOD.length := by
  obtain ⟨hmax, hheap, hviews⟩ := h
  by_cases hmem : object ∈ w.sys.objects
  · have hcur : (w.heap object).currentLOD = some ((0 : Nat) : Int) := by
      rw [hheap object, hzero]; rfl
    cases hv0 : w.sys.viewsLOD[0]? with
    | none =>
      have hv : viewAt w.sys.viewsLOD (w.heap object).currentLOD = none := by
        rw [hcur]; simp [viewAt, lodIndex, hv0]
      rw [unregister_tracked_undefined hmem hv]
      refine ⟨⟨hmax, hheap, ?_⟩, rfl⟩
      intro l m hm
      have hnil : w.sys.viewsLOD = [] := by
        cases hvs : w.sys.viewsLOD with
        | nil => rfl
        | cons a as => rw [hvs] at hv0; simp at hv0
      simp only [hnil] at hm
      simp at hm
    | some v =>
      have hv : viewAt w.sys.viewsLOD (w.heap object).currentLOD = some (0, v) :=
        viewAt_eq_some.mpr ⟨hcur, hv0⟩
      rw [unregister_tracked hmem hv]
      have hidx : w.sys.objects.indexOf object < w.sys.objects.length :=
        List.indexOf_lt_length.mpr hmem
      have hlen : ((w.sys.objects.eraseIdx (w.sys.objects.indexOf object)).length : Int)
          = (w.sys.objects.length : Int) - 1 := by
        rw [List.length_eraseIdx, if_pos hidx]; omega
      have hlt : 0 < w.sys.viewsLOD.length := by
        rcases List.getElem?_eq_some.mp hv0 with ⟨hlt, _⟩; exact hlt
      refine ⟨⟨hmax, hheap, ?_⟩, by simp⟩
      intro l m hm
      simp only at hm ⊢
      rw [hlen]
      by_cases hl : 0 = l
      · subst hl
        rw [List.getElem?_set_self hlt] at hm
        obtain ⟨c0, cobj, clen, ccount⟩ := hviews 0 v hv0
        have e := (Option.some.inj hm).symm
        subst e
        simp only [if_true] at ccount ⊢
        exact ⟨c0, by omega, clen, by omega⟩
      · rw [List.getElem?_set_ne hl] at hm
        obtain ⟨c0, cobj, clen, ccount⟩ := hviews l m hm
        have hl' : l ≠ 0 := fun e => hl e.symm
        simp only [hl', if_false] at ccount ⊢
        exact ⟨c0, by omega, clen, ccount⟩
  · rw [unregister_untracked hmem]
    exact ⟨⟨hmax, hheap, hviews⟩, rfl⟩

theorem registry_run {count : Int} {heap : Nat → Object3D} (calls : List Call) :
    ∀ w : World, SparseInv count heap w → registryCalls heap calls = true →
      SparseInv count heap (runCalls w calls) ∧
      (runCalls w calls).sys.viewsLOD.length = w.sys.viewsLOD.length := by
  induction calls with
  | nil => intro w h _; exact ⟨h, rfl⟩
  | cons c cs ih =>
    intro w h hr
    cases c with
    | register object =>
      simp only [registryCalls] at hr
      obtain ⟨s1, s2⟩ := sparseInv_register h object
      obtain ⟨r1, r2⟩ := ih _ s1 hr
      exact ⟨r1, by rw [← s2]; exact r2⟩
    | unregister object =>
      simp only [registryCalls, Bool.and_eq_true, decide_eq_true_eq] at hr
      obtain ⟨s1, s2⟩ := sparseInv_unregister h hr.1
      obtain ⟨r1, r2⟩ := ih _ s1 hr.2
      exact ⟨r1, by rw [← s2]; exact r2⟩
    | setObjectMatrix object => simp [registryCalls] at hr
    | update visibleChunks => simp [registryCalls] at hr

theorem sparseInv_construct {meshModels : List MeshModel} {count : Int} {name : String}
    {sys : LODInstancedViewSystem} (heap : Nat → Object3D)
    (hnew : construct meshModels count name = .ok sys) :
    SparseInv count heap { sys := sys, heap := heap } := by
  obtain ⟨h1, _, h3, _, h5⟩ := construct_ok hnew
  refine ⟨h1, fun _ => rfl, ?_⟩
  intro l m hm
  obtain ⟨c0, ccount, clen⟩ := h5 m (List.getElem?_mem hm)
  simp only [h3, List.length_nil]
  refine ⟨c0, by simpa using c0, clen, ?_⟩
  rw [ccount]; split <;> rfl

/-- C20. In every state reached from a freshly constructed view with at least one level
by `register` and `unregister` calls only (failing ones included), where every
unregistered object has `currentLOD = 0`, buffer 0's active count is the number of
tracked objects and every other buffer's active count is 0. -/
theorem registry_counts (meshModels : List MeshModel) (count : Int) (name : String)
    (sys : LODInstancedViewSystem) (heap : Nat → Object3D) (calls : List Call)
    (hnew : construct meshModels count name = .ok sys) (hlod : meshModels ≠ [])
    (hcalls : registryCalls heap calls = true) :
    (runCalls { sys := sys, heap := heap } calls).sys.viewsLOD.length = meshModels.length ∧
    countAt (runCalls { sys := sys, heap := heap } calls) 0 =
      some ((runCalls { sys := sys, heap := heap } calls).sys.objects.length : Int) ∧
    ∀ l, l ≠ 0 → l < meshModels.length →
      countAt (runCalls { sys := sys, heap := heap } calls) l = some 0 := by
  obtain ⟨_, _, _, h4, _⟩ := construct_ok hnew
  obtain ⟨⟨_, _, hviews⟩, hlen⟩ :=
    registry_run calls { sys := sys, heap := heap } (sparseInv_construct heap hnew) hcalls
  have hlen' : (runCalls { sys := sys, heap := heap } calls).sys.viewsLOD.length
      = meshModels.length := by rw [hlen]; exact h4
  have hpos : 0 < meshModels.length := List.length_pos.mpr hlod
  refine ⟨hlen', ?_, ?_⟩
  · have h0 : 0 < (runCalls { sys := sys, heap := heap } calls).sys.viewsLOD.length := by
      rw [hlen']; exact hpos
    have := (hviews 0 _ (List.getElem?_eq_getElem h0)).2.2.2
    simp only [countAt, List.getElem?_eq_getElem h0, Option.map_some', if_true] at this ⊢
    rw [this]
  · intro l hne hl
    have hl' : l < (runCalls { sys := sys, heap := heap } calls).sys.viewsLOD.length := by
      rw [hlen']; exact hl
    have := (hviews l _ (List.getElem?_eq_getElem hl')).2.2.2
    simp only [countAt, List.getElem?_eq_getElem hl', Option.map_some', hne, if_false]
      at this ⊢
    rw [this]

/-- An instance of C20 on the example view: three registrations and two
unregistrations of objects at level 0 leave one tracked object, and the counts of the two
buffers are the number of tracked objects and 0. -/
theorem registry_counts_witness :
    (runCalls { sys := exampleSys, heap := flatHeap }
      [.register 1, .register 2, .unregister 1, .register 3, .unregister 2]).sys.viewsLOD.length = [exampleModel, exampleModel].length ∧
    countAt (runCalls { sys := exampleSys, heap := flatHeap }
      [.register 1, .register 2, .unregister 1, .register 3, .unregister 2]) 0 =
      some ((runCalls { sys := exampleSys, heap := flatHeap }
        [.register 1, .register 2, .unregister 1, .register 3, .unregister 2]).sys.objects.length : Int) ∧
    ∀ l, l ≠ 0 → l < [exampleModel, exampleModel].length →
      countAt (runCalls { sys := exampleSys, heap := flatHeap }
        [.register 1, .register 2, .unregister 1, .register 3, .unregister 2]) l = some 0 :=
  registry_counts [exampleModel, exampleModel] 10 "trees" exampleSys flatHeap
    [.register 1, .register 2, .unregister 1, .register 3, .unregister 2]
    rfl (by decide) (by decide)

end LODView
